import Mathlib

/-!
# Verification of the reliverse configuration reconciliation engine

A shallow embedding of the configuration subsystem of the repository
(`deepMerge`, the TypeBox-style schema validator, `fixLineByLine`,
`cleanGitHubUrl`, `mergeWithDefaults`, and the persistence layer
`writeReliverseConfig` / `readReliverseConfig` / `parseAndFixConfig` /
`updateReliverseConfig` / `migrateReliverseConfig`), together with
theorems settling the spec claims about it.

JavaScript runtime values are modelled by `JValue` (JSON values plus the
distinguished `undefined`); objects are insertion-ordered association
lists, exactly the observable semantics of plain JS objects.
-/

namespace Reliverse

/-- A JavaScript runtime value as manipulated by the config engine:
JSON values plus the distinguished `undefined`. Objects are
insertion-ordered association lists of fields. -/
inductive JValue where
  | null : JValue
  | undef : JValue
  | bool (b : Bool) : JValue
  | num (n : Int) : JValue
  | str (s : String) : JValue
  | arr (elems : List JValue) : JValue
  | obj (fields : List (String × JValue)) : JValue
deriving Repr

mutual

/-- Decidable equality for `JValue` (spelled out because automatic
derivation does not handle the nested `List` occurrences). -/
def decEqJ : (a b : JValue) → Decidable (a = b)
  | .null, .null => isTrue rfl
  | .undef, .undef => isTrue rfl
  | .bool x, .bool y =>
    match decEq x y with
    | isTrue h => isTrue (by rw [h])
    | isFalse h => isFalse (by intro hh; cases hh; exact h rfl)
  | .num x, .num y =>
    match decEq x y with
    | isTrue h => isTrue (by rw [h])
    | isFalse h => isFalse (by intro hh; cases hh; exact h rfl)
  | .str x, .str y =>
    match decEq x y with
    | isTrue h => isTrue (by rw [h])
    | isFalse h => isFalse (by intro hh; cases hh; exact h rfl)
  | .arr xs, .arr ys =>
    match decEqL xs ys with
    | isTrue h => isTrue (by rw [h])
    | isFalse h => isFalse (by intro hh; cases hh; exact h rfl)
  | .obj xs, .obj ys =>
    match decEqF xs ys with
    | isTrue h => isTrue (by rw [h])
    | isFalse h => isFalse (by intro hh; cases hh; exact h rfl)
  | .null, .undef => isFalse (by intro h; exact JValue.noConfusion h)
  | .null, .bool _ => isFalse (by intro h; exact JValue.noConfusion h)
  | .null, .num _ => isFalse (by intro h; exact JValue.noConfusion h)
  | .null, .str _ => isFalse (by intro h; exact JValue.noConfusion h)
  | .null, .arr _ => isFalse (by intro h; exact JValue.noConfusion h)
  | .null, .obj _ => isFalse (by intro h; exact JValue.noConfusion h)
  | .undef, .null => isFalse (by intro h; exact JValue.noConfusion h)
  | .undef, .bool _ => isFalse (by intro h; exact JValue.noConfusion h)
  | .undef, .num _ => isFalse (by intro h; exact JValue.noConfusion h)
  | .undef, .str _ => isFalse (by intro h; exact JValue.noConfusion h)
  | .undef, .arr _ => isFalse (by intro h; exact JValue.noConfusion h)
  | .undef, .obj _ => isFalse (by intro h; exact JValue.noConfusion h)
  | .bool _, .null => isFalse (by intro h; exact JValue.noConfusion h)
  | .bool _, .undef => isFalse (by intro h; exact JValue.noConfusion h)
  | .bool _, .num _ => isFalse (by intro h; exact JValue.noConfusion h)
  | .bool _, .str _ => isFalse (by intro h; exact JValue.noConfusion h)
  | .bool _, .arr _ => isFalse (by intro h; exact JValue.noConfusion h)
  | .bool _, .obj _ => isFalse (by intro h; exact JValue.noConfusion h)
  | .num _, .null => isFalse (by intro h; exact JValue.noConfusion h)
  | .num _, .undef => isFalse (by intro h; exact JValue.noConfusion h)
  | .num _, .bool _ => isFalse (by intro h; exact JValue.noConfusion h)
  | .num _, .str _ => isFalse (by intro h; exact JValue.noConfusion h)
  | .num _, .arr _ => isFalse (by intro h; exact JValue.noConfusion h)
  | .num _, .obj _ => isFalse (by intro h; exact JValue.noConfusion h)
  | .str _, .null => isFalse (by intro h; exact JValue.noConfusion h)
  | .str _, .undef => isFalse (by intro h; exact JValue.noConfusion h)
  | .str _, .bool _ => isFalse (by intro h; exact JValue.noConfusion h)
  | .str _, .num _ => isFalse (by intro h; exact JValue.noConfusion h)
  | .str _, .arr _ => isFalse (by intro h; exact JValue.noConfusion h)
  | .str _, .obj _ => isFalse (by intro h; exact JValue.noConfusion h)
  | .arr _, .null => isFalse (by intro h; exact JValue.noConfusion h)
  | .arr _, .undef => isFalse (by intro h; exact JValue.noConfusion h)
  | .arr _, .bool _ => isFalse (by intro h; exact JValue.noConfusion h)
  | .arr _, .num _ => isFalse (by intro h; exact JValue.noConfusion h)
  | .arr _, .str _ => isFalse (by intro h; exact JValue.noConfusion h)
  | .arr _, .obj _ => isFalse (by intro h; exact JValue.noConfusion h)
  | .obj _, .null => isFalse (by intro h; exact JValue.noConfusion h)
  | .obj _, .undef => isFalse (by intro h; exact JValue.noConfusion h)
  | .obj _, .bool _ => isFalse (by intro h; exact JValue.noConfusion h)
  | .obj _, .num _ => isFalse (by intro h; exact JValue.noConfusion h)
  | .obj _, .str _ => isFalse (by intro h; exact JValue.noConfusion h)
  | .obj _, .arr _ => isFalse (by intro h; exact JValue.noConfusion h)

/-- Decidable equality for lists of `JValue`. -/
def decEqL : (a b : List JValue) → Decidable (a = b)
  | [], [] => isTrue rfl
  | [], _ :: _ => isFalse (by intro h; exact List.noConfusion h)
  | _ :: _, [] => isFalse (by intro h; exact List.noConfusion h)
  | x :: xs, y :: ys =>
    match decEqJ x y, decEqL xs ys with
    | isTrue h1, isTrue h2 => isTrue (by rw [h1, h2])
    | isFalse h1, _ => isFalse (by intro hh; cases hh; exact h1 rfl)
    | _, isFalse h2 => isFalse (by intro hh; cases hh; exact h2 rfl)

/-- Decidable equality for field lists. -/
def decEqF : (a b : List (String × JValue)) → Decidable (a = b)
  | [], [] => isTrue rfl
  | [], _ :: _ => isFalse (by intro h; exact List.noConfusion h)
  | _ :: _, [] => isFalse (by intro h; exact List.noConfusion h)
  | (k1, v1) :: xs, (k2, v2) :: ys =>
    match decEq k1 k2, decEqJ v1 v2, decEqF xs ys with
    | isTrue h0, isTrue h1, isTrue h2 => isTrue (by rw [h0, h1, h2])
    | isFalse h0, _, _ => isFalse (by intro hh; cases hh; exact h0 rfl)
    | _, isFalse h1, _ => isFalse (by intro hh; cases hh; exact h1 rfl)
    | _, _, isFalse h2 => isFalse (by intro hh; cases hh; exact h2 rfl)

end

instance : DecidableEq JValue := decEqJ

/-- First binding of key `k` (JS objects never hold duplicate keys, so
first and only). -/
def jget : List (String × JValue) → String → Option JValue
  | [], _ => none
  | (k', v') :: rest, k => if k' = k then some v' else jget rest k

/-- JS property read `o[k]`: `undefined` when the key is absent or the
receiver is not an object. -/
def jgetD (v : JValue) (k : String) : JValue :=
  match v with
  | .obj fields => (jget fields k).getD .undef
  | _ => (.undef)

/-- JS `k in o` for an object receiver (true even for a key bound to
`undefined`); `false` on non-objects (array index/length quirks are not
exercised by the engine). -/
def hasKey (v : JValue) (k : String) : Bool :=
  match v with
  | .obj fields => fields.any (fun kv => kv.1 = k)
  | _ => false

/-- JS assignment `o[k] = v`: overwrite in place if the key exists
(keeping its position), else append. -/
def setKey : List (String × JValue) → String → JValue → List (String × JValue)
  | [], k, v => [(k, v)]
  | (k', v') :: rest, k, v =>
    if k' = k then (k, v) :: rest else (k', v') :: setKey rest k v

/-- JS object spread `{...v}`: an object's own enumerable fields; arrays
spread to index-keyed fields; primitives spread to nothing. -/
def spreadFields : JValue → List (String × JValue)
  | .obj fields => fields
  | .arr elems => (elems.enum.map (fun p => (toString p.1, p.2)))
  | _ => []

/-- `typeof v === "object" && v !== null` (arrays included). -/
def isObjLike : JValue → Bool
  | .obj _ => true
  | .arr _ => true
  | _ => false

/-- Non-null, non-array object: the only values `deepMerge` recurses on. -/
def isMergeObj : JValue → Bool
  | .obj _ => true
  | _ => false

/-- `Array.isArray(v)`. -/
def isArr : JValue → Bool
  | .arr _ => true
  | _ => false

mutual

/-- The loop of `deepMerge` (part_001 lines 133-163): `target` is the
original base object, `result` the object being built (starting from
`{...target}`), and the third argument the remaining `source` fields. -/
def mergeLoop (target result : List (String × JValue)) :
    List (String × JValue) → List (String × JValue)
  | [] => result
  | (k, sv) :: rest => mergeLoop target (mergeStep target result k sv) rest

/-- One iteration of the `deepMerge` loop: skip an `undefined` source
value; when both the original `target` value and the source value are
non-array objects, recurse; otherwise the source value replaces the
`result` entry outright. -/
def mergeStep (target result : List (String × JValue)) (k : String) :
    JValue → List (String × JValue)
  | .undef => result
  | .obj sf =>
    match jget target k with
    | some (.obj tf) => setKey result k (.obj (mergeLoop tf tf sf))
    | _ => setKey result k (.obj sf)
  | sv => setKey result k sv

end

/-- `deepMerge(target, source)` on field lists. -/
def deepMerge (target source : List (String × JValue)) : List (String × JValue) :=
  mergeLoop target target source

/-!
## Schema and validator

The engine validates against `reliverseConfigSchema`, a TypeBox schema
imported from `schemaConfig.js` (not among the provided sources).  The
schema language itself is modelled after the spec's data model (§3): a
tree of object nodes (properties, required-key list, flag rejecting
unknown properties) and leaf nodes (type / string-literal / enum /
array-of).  The validator `check` models TypeBox's `Value.Check`; the
functions that close over the imported schema constant take it as an
explicit parameter instead.
-/

/-- A declarative schema node (spec §3): object nodes carry declared
properties in order, the required-key list, and whether additional
(unknown) properties are accepted; leaves constrain a primitive, a
string literal, a string enum, or an array of a given element schema. -/
inductive Schema where
  | sObject (props : List (String × Schema)) (required : List String) (addl : Bool) : Schema
  | sString : Schema
  | sNumber : Schema
  | sBoolean : Schema
  | sLiteral (s : String) : Schema
  | sEnum (vals : List String) : Schema
  | sArray (elem : Schema) : Schema
deriving Repr

mutual

/-- Decidable equality for `Schema`. -/
def decEqS : (a b : Schema) → Decidable (a = b)
  | .sString, .sString => isTrue rfl
  | .sNumber, .sNumber => isTrue rfl
  | .sBoolean, .sBoolean => isTrue rfl
  | .sLiteral x, .sLiteral y =>
    match decEq x y with
    | isTrue h => isTrue (by rw [h])
    | isFalse h => isFalse (by intro hh; cases hh; exact h rfl)
  | .sEnum x, .sEnum y =>
    match decEq x y with
    | isTrue h => isTrue (by rw [h])
    | isFalse h => isFalse (by intro hh; cases hh; exact h rfl)
  | .sArray x, .sArray y =>
    match decEqS x y with
    | isTrue h => isTrue (by rw [h])
    | isFalse h => isFalse (by intro hh; cases hh; exact h rfl)
  | .sObject ps rs a, .sObject qs ss b =>
    match decEqSF ps qs, decEq rs ss, decEq a b with
    | isTrue h0, isTrue h1, isTrue h2 => isTrue (by rw [h0, h1, h2])
    | isFalse h0, _, _ => isFalse (by intro hh; cases hh; exact h0 rfl)
    | _, isFalse h1, _ => isFalse (by intro hh; cases hh; exact h1 rfl)
    | _, _, isFalse h2 => isFalse (by intro hh; cases hh; exact h2 rfl)
  | .sObject _ _ _, .sString => isFalse (by intro h; exact Schema.noConfusion h)
  | .sObject _ _ _, .sNumber => isFalse (by intro h; exact Schema.noConfusion h)
  | .sObject _ _ _, .sBoolean => isFalse (by intro h; exact Schema.noConfusion h)
  | .sObject _ _ _, .sLiteral _ => isFalse (by intro h; exact Schema.noConfusion h)
  | .sObject _ _ _, .sEnum _ => isFalse (by intro h; exact Schema.noConfusion h)
  | .sObject _ _ _, .sArray _ => isFalse (by intro h; exact Schema.noConfusion h)
  | .sString, .sObject _ _ _ => isFalse (by intro h; exact Schema.noConfusion h)
  | .sString, .sNumber => isFalse (by intro h; exact Schema.noConfusion h)
  | .sString, .sBoolean => isFalse (by intro h; exact Schema.noConfusion h)
  | .sString, .sLiteral _ => isFalse (by intro h; exact Schema.noConfusion h)
  | .sString, .sEnum _ => isFalse (by intro h; exact Schema.noConfusion h)
  | .sString, .sArray _ => isFalse (by intro h; exact Schema.noConfusion h)
  | .sNumber, .sObject _ _ _ => isFalse (by intro h; exact Schema.noConfusion h)
  | .sNumber, .sString => isFalse (by intro h; exact Schema.noConfusion h)
  | .sNumber, .sBoolean => isFalse (by intro h; exact Schema.noConfusion h)
  | .sNumber, .sLiteral _ => isFalse (by intro h; exact Schema.noConfusion h)
  | .sNumber, .sEnum _ => isFalse (by intro h; exact Schema.noConfusion h)
  | .sNumber, .sArray _ => isFalse (by intro h; exact Schema.noConfusion h)
  | .sBoolean, .sObject _ _ _ => isFalse (by intro h; exact Schema.noConfusion h)
  | .sBoolean, .sString => isFalse (by intro h; exact Schema.noConfusion h)
  | .sBoolean, .sNumber => isFalse (by intro h; exact Schema.noConfusion h)
  | .sBoolean, .sLiteral _ => isFalse (by intro h; exact Schema.noConfusion h)
  | .sBoolean, .sEnum _ => isFalse (by intro h; exact Schema.noConfusion h)
  | .sBoolean, .sArray _ => isFalse (by intro h; exact Schema.noConfusion h)
  | .sLiteral _, .sObject _ _ _ => isFalse (by intro h; exact Schema.noConfusion h)
  | .sLiteral _, .sString => isFalse (by intro h; exact Schema.noConfusion h)
  | .sLiteral _, .sNumber => isFalse (by intro h; exact Schema.noConfusion h)
  | .sLiteral _, .sBoolean => isFalse (by intro h; exact Schema.noConfusion h)
  | .sLiteral _, .sEnum _ => isFalse (by intro h; exact Schema.noConfusion h)
  | .sLiteral _, .sArray _ => isFalse (by intro h; exact Schema.noConfusion h)
  | .sEnum _, .sObject _ _ _ => isFalse (by intro h; exact Schema.noConfusion h)
  | .sEnum _, .sString => isFalse (by intro h; exact Schema.noConfusion h)
  | .sEnum _, .sNumber => isFalse (by intro h; exact Schema.noConfusion h)
  | .sEnum _, .sBoolean => isFalse (by intro h; exact Schema.noConfusion h)
  | .sEnum _, .sLiteral _ => isFalse (by intro h; exact Schema.noConfusion h)
  | .sEnum _, .sArray _ => isFalse (by intro h; exact Schema.noConfusion h)
  | .sArray _, .sObject _ _ _ => isFalse (by intro h; exact Schema.noConfusion h)
  | .sArray _, .sString => isFalse (by intro h; exact Schema.noConfusion h)
  | .sArray _, .sNumber => isFalse (by intro h; exact Schema.noConfusion h)
  | .sArray _, .sBoolean => isFalse (by intro h; exact Schema.noConfusion h)
  | .sArray _, .sLiteral _ => isFalse (by intro h; exact Schema.noConfusion h)
  | .sArray _, .sEnum _ => isFalse (by intro h; exact Schema.noConfusion h)

/-- Decidable equality for schema property lists. -/
def decEqSF : (a b : List (String × Schema)) → Decidable (a = b)
  | [], [] => isTrue rfl
  | [], _ :: _ => isFalse (by intro h; exact List.noConfusion h)
  | _ :: _, [] => isFalse (by intro h; exact List.noConfusion h)
  | (k1, v1) :: xs, (k2, v2) :: ys =>
    match decEq k1 k2, decEqS v1 v2, decEqSF xs ys with
    | isTrue h0, isTrue h1, isTrue h2 => isTrue (by rw [h0, h1, h2])
    | isFalse h0, _, _ => isFalse (by intro hh; cases hh; exact h0 rfl)
    | _, isFalse h1, _ => isFalse (by intro hh; cases hh; exact h1 rfl)
    | _, _, isFalse h2 => isFalse (by intro hh; cases hh; exact h2 rfl)

end

instance : DecidableEq Schema := decEqS

mutual

/-- `Value.Check(schema, value)`: an object node requires every required
key to be present (`key in value`), every present declared property to
satisfy its child schema (a binding to `undefined` fails every child
check, as in TypeBox), and, when unknown properties are rejected, every
field key to be declared; leaves check the runtime type/shape. -/
def check : Schema → JValue → Bool
  | .sObject props required addl, .obj fields =>
    required.all (fun r => fields.any (fun kv => kv.1 = r)) &&
    checkProps props fields &&
    (addl || fields.all (fun kv => props.any (fun ps => ps.1 = kv.1)))
  | .sString, .str _ => true
  | .sNumber, .num _ => true
  | .sBoolean, .bool _ => true
  | .sLiteral s, .str t => s = t
  | .sEnum vals, .str t => vals.contains t
  | .sArray elem, .arr elems => elems.all (fun e => check elem e)
  | _, _ => false

/-- Check each declared property that is present in `fields` against
its child schema (a binding to `undefined` fails the child check). -/
def checkProps : List (String × Schema) → List (String × JValue) → Bool
  | [], _ => true
  | (p, s) :: rest, fields =>
    (match jget fields p with
     | none => true
     | some v => check s v) && checkProps rest fields

end

/-- `createSinglePropertySchema(key, subSchema)` (part_001 lines
470-475): a one-property object node, required and closed. -/
def createSinglePropertySchema (key : String) (subSchema : Schema) : Schema :=
  .sObject [(key, subSchema)] [key] false

/-- `fixSingleProperty(schema, propName, userValue, defaultValue)`
(part_001 lines 480-491): keep `userValue` if `{propName: userValue}`
validates against the synthetic one-property schema, else fall back to
`defaultValue`. -/
def fixSingleProperty (schema : Schema) (propName : String)
    (userValue defaultValue : JValue) : JValue :=
  if check (createSinglePropertySchema propName schema) (.obj [(propName, userValue)])
  then userValue else defaultValue

mutual

/-- JS `String(v)` coercion. -/
def jsToString : JValue → String
  | .null => "null"
  | .undef => "undefined"
  | .bool b => if b then "true" else "false"
  | .num n => toString n
  | .str s => s
  | .obj _ => "[object Object]"
  | .arr elems => String.intercalate "," (jsArrParts elems)

/-- Array elements under JS `toString`: `null` and `undefined` render
as the empty string inside a joined array. -/
def jsArrParts : List JValue → List String
  | [] => []
  | .null :: rest => "" :: jsArrParts rest
  | .undef :: rest => "" :: jsArrParts rest
  | v :: rest => jsToString v :: jsArrParts rest

end

/-- Whitespace for the purposes of JS `String.prototype.trim`. -/
def jsWS (c : Char) : Bool :=
  c = ' ' ∨ c = '\t' ∨ c = '\n' ∨ c = '\r'

/-- Drop leading whitespace characters. -/
def dropLeadingWS : List Char → List Char
  | [] => []
  | c :: rest => if jsWS c then dropLeadingWS rest else c :: rest

/-- JS `url.trim()` at the character level. -/
def trimChars (cs : List Char) : List Char :=
  ((dropLeadingWS (dropLeadingWS cs).reverse)).reverse

/-- Strip `p` from the front of `s`, comparing case-insensitively
(character-level model of an anchored case-insensitive regex match). -/
def stripCaseless (p s : List Char) : Option (List Char) :=
  if (s.take p.length).map Char.toLower = p.map Char.toLower
  then some (s.drop p.length) else none

/-- The four hosts recognised by `cleanGitHubUrl`. -/
def knownHosts : List String := ["github", "gitlab", "bitbucket", "sourcehut"]

/-- `cleanGitHubUrl(url)` (part_001 lines 1060-1070): trim, strip a
leading `git+` (case-sensitively), strip a leading
`http(s)://(www.)?<host>.com/` (case-insensitively), then a leading
`<host>.com/` (case-insensitively), then a trailing `.git`
(case-insensitively).  The anchored regexes are modelled at the
character level. -/
def cleanGitHubUrl (url : String) : String :=
  let c1 := trimChars url.data
  let c2 := if "git+".data.isPrefixOf c1 then c1.drop 4 else c1
  let protoHost :=
    (knownHosts.map (fun h =>
      ["https://" ++ h ++ ".com/", "https://www." ++ h ++ ".com/",
       "http://" ++ h ++ ".com/", "http://www." ++ h ++ ".com/"])).flatten
  let c3 := match protoHost.findSome? (fun p => stripCaseless p.data c2) with
    | some r => r
    | none => c2
  let bareHost := knownHosts.map (fun h => h ++ ".com/")
  let c4 := match bareHost.findSome? (fun p => stripCaseless p.data c3) with
    | some r => r
    | none => c3
  let c5 := if c4.length ≥ 4 ∧ (c4.drop (c4.length - 4)).map Char.toLower = ".git".data
            then c4.take (c4.length - 4) else c4
  String.mk c5

/-- The two property names special-cased by `fixLineByLine`. -/
def reposNames : List String := ["customUserFocusedRepos", "customDevsFocusedRepos"]

/-- The element-wise URL cleaning applied to the two repository-list
properties: string-coerce each element and clean it. -/
def cleanRepoArray : JValue → JValue
  | .arr elems => .arr (elems.map (fun e => .str (cleanGitHubUrl (jsToString e))))
  | v => v

/-- Is the schema node an object node (`schema.type === "object" &&
schema.properties`)? -/
def isObjectSchema : Schema → Bool
  | .sObject _ _ _ => true
  | _ => false

mutual

/-- `fixLineByLine(userConfig, defaultConfig, schema)` (part_001 lines
497-591): returns the repaired value and the ordered list of changed
keys.  A non-object candidate or non-object schema is treated
atomically; otherwise the declared properties are repaired one by one
over a copy of the default object. -/
def fixLineByLine (userConfig defaultConfig : JValue) (schema : Schema) :
    JValue × List String :=
  match schema with
  | .sObject props required addl =>
    if isObjLike userConfig then
      let (fields, changed) :=
        fixProps userConfig defaultConfig props (spreadFields defaultConfig)
      (.obj fields, changed)
    else
      if check (.sObject props required addl) userConfig
      then (userConfig, [])
      else (defaultConfig, ["<entire_object>"])
  | s =>
    if check s userConfig then (userConfig, [])
    else (defaultConfig, ["<entire_object>"])

/-- The property loop of `fixLineByLine`: walk the declared properties
in schema order, assigning into `res` (which starts as a copy of the
default object) and collecting changed keys in iteration order. -/
def fixProps (userConfig defaultConfig : JValue) :
    List (String × Schema) → List (String × JValue) →
    List (String × JValue) × List String
  | [], res => (res, [])
  | (propName, subSchema) :: rest, res =>
    let userValue := jgetD userConfig propName
    let defaultValue := jgetD defaultConfig propName
    if userValue = .undef ∧ ¬ hasKey userConfig propName then
      -- missing key: fill from default (reported separately, not a changed key)
      fixProps userConfig defaultConfig rest (setKey res propName defaultValue)
    else if propName ∈ reposNames ∧ isArr userValue then
      fixProps userConfig defaultConfig rest
        (setKey res propName (cleanRepoArray userValue))
    else if ¬ check (createSinglePropertySchema propName subSchema)
              (.obj [(propName, userValue)]) then
      let (res', ch) :=
        fixProps userConfig defaultConfig rest (setKey res propName defaultValue)
      (res', propName :: ch)
    else if isObjectSchema subSchema then
      let (fixed, nested) := fixLineByLine userValue defaultValue subSchema
      let (res', ch) :=
        fixProps userConfig defaultConfig rest (setKey res propName fixed)
      (res', nested.map (fun nc => propName ++ "." ++ nc) ++ ch)
    else
      let validated := fixSingleProperty subSchema propName userValue defaultValue
      let (res', ch) :=
        fixProps userConfig defaultConfig rest (setKey res propName validated)
      (res', (if userValue ≠ .undef ∧ validated ≠ userValue then [propName] else []) ++ ch)

end

/-!
## Default document and `mergeWithDefaults`

`DEFAULT_CONFIG` (part_001 lines 336-428) transcribed field by field in
source order.  Leaf string constants (`UNKNOWN_VALUE`, `DEFAULT_DOMAIN`,
`RELIVERSE_SCHEMA_URL`) are imported from `~/app/constants.js`, which is
not among the provided sources, and `projectPackageManager` /
`projectRuntime` are runtime-probed; the concrete strings chosen here
are immaterial to every theorem below.
-/

def UNKNOWN_VALUE : String := "unknown"

def DEFAULT_DOMAIN : String := "relivator.com"

def RELIVERSE_SCHEMA_URL : String := "https://reliverse.org/schema.json"

/-- `DEFAULT_CONFIG` (part_001 lines 336-428). -/
def DEFAULT_CONFIG : JValue := .obj
  [ ("$schema", .str RELIVERSE_SCHEMA_URL)
  , ("projectName", .str UNKNOWN_VALUE)
  , ("projectAuthor", .str UNKNOWN_VALUE)
  , ("projectDescription", .str UNKNOWN_VALUE)
  , ("version", .str "0.1.0")
  , ("projectLicense", .str "MIT")
  , ("projectState", .str "creating")
  , ("projectRepository", .str DEFAULT_DOMAIN)
  , ("projectDomain", .str DEFAULT_DOMAIN)
  , ("projectCategory", .str UNKNOWN_VALUE)
  , ("projectSubcategory", .str UNKNOWN_VALUE)
  , ("projectTemplate", .str UNKNOWN_VALUE)
  , ("projectArchitecture", .str UNKNOWN_VALUE)
  , ("repoPrivacy", .str UNKNOWN_VALUE)
  , ("projectGitService", .str "github")
  , ("projectDeployService", .str "vercel")
  , ("repoBranch", .str "main")
  , ("projectFramework", .str "nextjs")
  , ("projectPackageManager", .str "npm")
  , ("projectRuntime", .str "node")
  , ("preferredLibraries", .obj
      [ ("stateManagement", .str "zustand")
      , ("formManagement", .str "react-hook-form")
      , ("styling", .str "tailwind")
      , ("uiComponents", .str "shadcn-ui")
      , ("testing", .str "bun")
      , ("authentication", .str "clerk")
      , ("database", .str "drizzle")
      , ("api", .str "trpc") ])
  , ("monorepo", .obj
      [ ("type", .str "none")
      , ("packages", .arr [])
      , ("sharedPackages", .arr []) ])
  , ("ignoreDependencies", .arr [])
  , ("customRules", .obj [])
  , ("features", .obj
      [ ("i18n", .bool false)
      , ("analytics", .bool false)
      , ("themeMode", .str "dark-light")
      , ("authentication", .bool true)
      , ("api", .bool true)
      , ("database", .bool true)
      , ("testing", .bool false)
      , ("docker", .bool false)
      , ("ci", .bool false)
      , ("commands", .arr [])
      , ("webview", .arr [])
      , ("language", .arr [])
      , ("themes", .arr []) ])
  , ("codeStyle", .obj
      [ ("dontRemoveComments", .bool true)
      , ("shouldAddComments", .bool true)
      , ("typeOrInterface", .str "type")
      , ("importOrRequire", .str "import")
      , ("quoteMark", .str "double")
      , ("semicolons", .bool true)
      , ("lineWidth", .num 80)
      , ("indentStyle", .str "space")
      , ("indentSize", .num 2)
      , ("importSymbol", .str "~")
      , ("trailingComma", .str "all")
      , ("bracketSpacing", .bool true)
      , ("arrowParens", .str "always")
      , ("tabWidth", .num 2)
      , ("jsToTs", .bool false)
      , ("cjsToEsm", .bool false)
      , ("modernize", .obj
          [ ("replaceFs", .bool false)
          , ("replacePath", .bool false)
          , ("replaceHttp", .bool false)
          , ("replaceProcess", .bool false)
          , ("replaceConsole", .bool false)
          , ("replaceEvents", .bool false) ]) ])
  , ("multipleRepoCloneMode", .bool false)
  , ("customUserFocusedRepos", .arr [])
  , ("customDevsFocusedRepos", .arr [])
  , ("hideRepoSuggestions", .bool false)
  , ("customReposOnNewProject", .bool false)
  , ("envComposerOpenBrowser", .bool true)
  , ("skipPromptsUseAutoBehavior", .bool false)
  , ("deployBehavior", .str "prompt")
  , ("depsBehavior", .str "prompt")
  , ("gitBehavior", .str "prompt")
  , ("i18nBehavior", .str "prompt")
  , ("scriptsBehavior", .str "prompt")
  , ("existingRepoBehavior", .str "prompt") ]

/-- JS object spread folded left to right (`{...init, ...src}` copies
every own field of `src`, including fields bound to `undefined`). -/
def spreadFold (init src : List (String × JValue)) : List (String × JValue) :=
  src.foldl (fun acc kv => setKey acc kv.1 kv.2) init

/-- `{...(v ?? {})}`: spread after null-coalescing to the empty object. -/
def orElseObjFields (v : JValue) : List (String × JValue) :=
  match v with
  | .null => []
  | .undef => []
  | v => spreadFields v

/-- `mergeWithDefaults(partial)` (part_001 lines 430-461): the object
literal spreads `DEFAULT_CONFIG` then `partial`, then reassigns
`features`, `codeStyle` (with its `modernize`), `preferredLibraries`,
`monorepo`, `customRules` as one-level spreads and `ignoreDependencies`
as a null-coalescing pick.  The module-level `DEFAULT_CONFIG` constant
is passed explicitly as `dc`. -/
def mergeWithDefaults (dc part : JValue) : JValue :=
  let base := spreadFold (spreadFields dc) (spreadFields part)
  let features := JValue.obj (spreadFold (spreadFields (jgetD dc "features"))
    (orElseObjFields (jgetD part "features")))
  let modernize := JValue.obj
    (spreadFold (spreadFields (jgetD (jgetD dc "codeStyle") "modernize"))
      (orElseObjFields (jgetD (jgetD part "codeStyle") "modernize")))
  let codeStyle := JValue.obj (setKey
    (spreadFold (spreadFields (jgetD dc "codeStyle"))
      (orElseObjFields (jgetD part "codeStyle")))
    "modernize" modernize)
  let preferredLibraries := JValue.obj
    (spreadFold (spreadFields (jgetD dc "preferredLibraries"))
      (orElseObjFields (jgetD part "preferredLibraries")))
  let monorepo := JValue.obj (spreadFold (spreadFields (jgetD dc "monorepo"))
    (orElseObjFields (jgetD part "monorepo")))
  let customRules := JValue.obj (spreadFold (spreadFields (jgetD dc "customRules"))
    (orElseObjFields (jgetD part "customRules")))
  let ignoreDependencies := match jgetD part "ignoreDependencies" with
    | .undef => jgetD dc "ignoreDependencies"
    | .null => jgetD dc "ignoreDependencies"
    | v => v
  .obj (setKey (setKey (setKey (setKey (setKey (setKey base
    "features" features)
    "codeStyle" codeStyle)
    "preferredLibraries" preferredLibraries)
    "monorepo" monorepo)
    "customRules" customRules)
    "ignoreDependencies" ignoreDependencies)

/-!
## Filesystem model and the persistence layer

A logical config path `P` has three managed siblings (`P` itself,
`P.backup`, `P.tmp`) plus, for the migration importer, the external
source document's path.  File contents are modelled up to their parse
result: `doc v` is content that parses (as JSONC) to `v` — the
serialization of a document `v`, with the Annotator's injected comments,
parses back to `v`, since comment injection only inserts `//` comment
lines and collapses blank lines outside string literals; `unparsable`
is content that yields nothing (empty file or malformed JSONC).  The
literal content `{}` is represented by `doc (obj [])`, its canonical
serialization. -/
inductive FileContent where
  | unparsable : FileContent
  | doc (v : JValue) : FileContent

instance : DecidableEq FileContent := fun a b =>
  match a, b with
  | .unparsable, .unparsable => isTrue rfl
  | .doc v, .doc w =>
    match decEqJ v w with
    | isTrue h => isTrue (by rw [h])
    | isFalse h => isFalse (by intro hh; cases hh; exact h rfl)
  | .unparsable, .doc _ => isFalse (by intro h; exact FileContent.noConfusion h)
  | .doc _, .unparsable => isFalse (by intro h; exact FileContent.noConfusion h)

/-- `parseJSONC` applied to file content: malformed or empty input
yields nothing (confbox's JSONC parser is lenient and the engine treats
a falsy parse as absent). -/
def parseJSONCF : FileContent → Option JValue
  | .unparsable => none
  | .doc v => some v

/-- The observable state of the one configuration path the engine
manages: primary file, backup sibling, temp sibling, and (for the
migration importer) the external source document. -/
structure FS where
  primary : Option FileContent
  backup : Option FileContent
  temp : Option FileContent
  external : Option FileContent
deriving DecidableEq

/-- Which I/O steps of a commit fail in a given run (error injection
for the atomic-write contract). -/
structure Plan where
  failBackup : Bool
  failTemp : Bool
  failRename : Bool
  failRemove : Bool
deriving DecidableEq

/-- The run in which every I/O step succeeds. -/
def noFail : Plan := ⟨false, false, false, false⟩

/-- Errors surfaced by the persistence layer. -/
inductive WErr where
  | invalidConfig : WErr
  | io : WErr
deriving DecidableEq

/-- Commit steps after the backup copy: write `P.tmp`, rename it onto
`P`, remove `P.backup`.  A failing temp write leaves a partial
(dangling) temp file; a failing rename leaves the temp file and the
prior primary untouched. -/
def commitAfterBackup (fs : FS) (content : JValue) (p : Plan) : FS × Option WErr :=
  if p.failTemp then ({fs with temp := some .unparsable}, some .io)
  else
    let fs2 := {fs with temp := some (.doc content)}
    if p.failRename then (fs2, some .io)
    else
      let fs3 := {fs2 with temp := none, primary := some (.doc content)}
      match fs3.backup with
      | some _ => if p.failRemove then (fs3, some .io) else ({fs3 with backup := none}, none)
      | none => (fs3, none)

/-- Steps 3-6 of the atomic write (shared verbatim between
`writeReliverseConfig` lines 722-731 and `updateReliverseConfig` lines
208-224): snapshot the existing primary to `P.backup`, then commit. -/
def atomicCommit (fs : FS) (content : JValue) (p : Plan) : FS × Option WErr :=
  match fs.primary with
  | some pc =>
    if p.failBackup then (fs, some .io)
    else commitAfterBackup {fs with backup := some pc} content p
  | none => commitAfterBackup fs content p

/-- The `try` block of `writeReliverseConfig` (part_001 lines 709-733):
validate, then serialize + inject comments (absorbed into `doc`), then
commit. -/
def wTry (fs : FS) (config : JValue) (schema : Schema) (p : Plan) : FS × Option WErr :=
  if ¬ check schema config then (fs, some .invalidConfig)
  else atomicCommit fs config p

/-- The `catch` block of `writeReliverseConfig` (part_001 lines
734-745) and of `updateReliverseConfig` (lines 228-249): restore `P`
from `P.backup` when the backup exists and the primary is missing, then
remove a dangling `P.tmp`. -/
def wCatch (fs : FS) : FS :=
  let fs1 := match fs.backup, fs.primary with
    | some b, none => {fs with primary := some b}
    | _, _ => fs
  match fs1.temp with
  | some _ => {fs1 with temp := none}
  | none => fs1

/-- `writeReliverseConfig(configPath, config)` (part_001 lines
702-747): run the try block; on error run the cleanup and re-raise the
original error (returned as `some e`). -/
def writeReliverseConfig (fs : FS) (config : JValue) (schema : Schema) (p : Plan) :
    FS × Option WErr :=
  match wTry fs config schema p with
  | (mid, none) => (mid, none)
  | (mid, some e) => (wCatch mid, some e)

/-- `updateReliverseConfig(projectPath, updates)` (part_001 lines
169-252): parse and keep the existing config only if schema-valid, deep
merge the updates in, refuse invalid merges, then do the backup + temp
+ rename + cleanup dance, returning `false` (after restore/cleanup) on
any thrown step. -/
def updateReliverseConfig (fs : FS) (updates : List (String × JValue))
    (schema : Schema) (p : Plan) : FS × Bool :=
  let existingFields : List (String × JValue) :=
    match fs.primary with
    | some c =>
      match parseJSONCF c with
      | some v => if check schema v then spreadFields v else []
      | none => []
    | none => []
  let merged := JValue.obj (deepMerge existingFields updates)
  if ¬ check schema merged then (fs, false)
  else
    match atomicCommit fs merged p with
    | (mid, none) => (mid, true)
    | (mid, some _) => (wCatch mid, false)

/-- The migration allow-list (part_001 lines 276-300). -/
def keysToMigrate : List String :=
  [ "projectDescription", "version", "projectLicense", "projectRepository"
  , "projectCategory", "projectSubcategory", "projectFramework"
  , "projectTemplate", "projectArchitecture", "deployBehavior"
  , "depsBehavior", "gitBehavior", "i18nBehavior", "scriptsBehavior"
  , "existingRepoBehavior", "repoPrivacy", "features", "preferredLibraries"
  , "codeStyle", "monorepo", "ignoreDependencies", "customRules"
  , "skipPromptsUseAutoBehavior" ]

/-- `migrateReliverseConfig(externalReliverseFilePath, projectPath)`
(part_001 lines 258-330): read and parse the external document (any
failure is caught and leaves the state unchanged), intersect its
defined fields with the allow-list, hand them to
`updateReliverseConfig`, then remove the external file — the removal is
not guarded by the update's success flag. -/
def migrateReliverseConfig (fs : FS) (schema : Schema) (p : Plan) : FS :=
  match fs.external with
  | none => fs
  | some c =>
    match parseJSONCF c with
    | none => fs
    | some v =>
      if ¬ isObjLike v then fs
      else
        let validFields := keysToMigrate.filterMap (fun k =>
          match jgetD v k with
          | .undef => none
          | value => some (k, value))
        let fs1 := (updateReliverseConfig fs validFields schema p).1
        {fs1 with external := none}

/-!
## The config reader

`parseReliverseFile`, `readReliverseConfig` and `parseAndFixConfig`
modelled with reliable I/O (the recovery-order claims are about control
flow, not fault injection); `composedRead` is the composition used at
every call site (`reReadReliverseConfig` lines 82-95, the reli-folder
loop lines 1036-1047, `getReliverseConfig` lines 1456-1466): a plain
read first, then the line-by-line fixer if that produced nothing.
-/

/-- `parseReliverseFile(configPath)` (part_001 lines 664-696) on given
content: empty or literal-`{}` content yields nothing, as does a
non-object parse; otherwise the parse together with its validity. -/
def parseReliverseFile (c : FileContent) (schema : Schema) : Option (JValue × Bool) :=
  match c with
  | .unparsable => none
  | .doc v =>
    if v = .obj [] then none
    else if ¬ isObjLike v then none
    else some (v, check schema v)

/-- `readReliverseConfig(configPath)` (part_001 lines 753-799): absent
file or unusable parse yields nothing; a valid parse is returned as-is;
an invalid parse is merged under the defaults and persisted if the
merge validates; otherwise a valid backup is copied over the primary
and returned; otherwise nothing. -/
def readReliverseConfig (fs : FS) (dc : JValue) (schema : Schema) :
    FS × Option JValue :=
  match fs.primary with
  | none => (fs, none)
  | some c =>
    match parseReliverseFile c schema with
    | none => (fs, none)
    | some (v, true) => (fs, some v)
    | some (v, false) =>
      let merged := mergeWithDefaults dc v
      if check schema merged then
        ((writeReliverseConfig fs merged schema noFail).1, some merged)
      else
        match fs.backup with
        | some bc =>
          match parseReliverseFile bc schema with
          | some (bv, true) => ({fs with primary := some bc}, some bv)
          | _ => (fs, none)
        | none => (fs, none)

/-- `parseAndFixConfig(configPath)` (part_001 lines 809-861): parse,
return a valid parse as-is, else run the line-by-line fixer against the
default document and persist + return the fix when it validates. -/
def parseAndFixConfig (fs : FS) (dc : JValue) (schema : Schema) :
    FS × Option JValue :=
  match fs.primary with
  | none => (fs, none)
  | some c =>
    match parseJSONCF c with
    | none => (fs, none)
    | some v =>
      if ¬ isObjLike v then (fs, none)
      else if check schema v then (fs, some v)
      else
        let fixed := (fixLineByLine v dc schema).1
        if check schema fixed then
          ((writeReliverseConfig fs fixed schema noFail).1, some fixed)
        else (fs, none)

/-- The reader as composed at every call site: `readReliverseConfig`,
then `parseAndFixConfig` when it produced nothing. -/
def composedRead (fs : FS) (dc : JValue) (schema : Schema) : FS × Option JValue :=
  match readReliverseConfig fs dc schema with
  | (fs1, some c) => (fs1, some c)
  | (fs1, none) => parseAndFixConfig fs1 dc schema

/-- The backup recovery layer's verdict in isolation: the parsed backup
document when the backup sibling parses valid per
`parseReliverseFile`. -/
def backupValidDoc (fs : FS) (schema : Schema) : Option JValue :=
  match fs.backup with
  | some bc =>
    match parseReliverseFile bc schema with
    | some (bv, true) => some bv
    | _ => none
  | none => none

/-- Modelled from the spec: the recovery cascade in the order claim C3
states it — accept, merge-defaults, line-by-line repair, restore from
backup, give up — for comparison with the code's composed reader. -/
def claimOrderRead (fs : FS) (dc : JValue) (schema : Schema) : Option JValue :=
  match fs.primary with
  | none => none
  | some .unparsable => none
  | some (.doc v) =>
    if v = .obj [] ∨ ¬ isObjLike v then none
    else if check schema v then some v
    else
      let merged := mergeWithDefaults dc v
      if check schema merged then some merged
      else
        let fixed := (fixLineByLine v dc schema).1
        if check schema fixed then some fixed
        else
          match backupValidDoc fs schema with
          | some bv => some bv
          | none => none

/-!
## Well-formedness predicates used by the idempotence analysis
-/

mutual

/-- The spec's Default Document invariant (§3): complete (every
declared property present, recursively) and schema-valid. -/
def defaultOk : Schema → JValue → Bool
  | .sObject props required addl, .obj fields =>
    check (.sObject props required addl) (.obj fields) &&
    defaultOkProps props fields
  | .sObject _ _ _, _ => false
  | s, v => check s v

/-- Every declared property present in the default with a recursively
complete, valid value. -/
def defaultOkProps : List (String × Schema) → List (String × JValue) → Bool
  | [], _ => true
  | (p, s) :: rest, fields =>
    (match jget fields p with
     | some v => defaultOk s v
     | none => false) && defaultOkProps rest fields

end

mutual

/-- Schema well-formedness (spec §3 invariant): every required key is
declared, and declared keys are duplicate-free, recursively. -/
def schemaWF : Schema → Bool
  | .sObject props required _ =>
    required.all (fun r => props.any (fun ps => ps.1 = r)) &&
    nodupKeysS props && schemaWFProps props

  | .sArray e => schemaWF e
  | _ => true

/-- Well-formedness of each child schema. -/
def schemaWFProps : List (String × Schema) → Bool
  | [] => true
  | (_, s) :: rest => schemaWF s && schemaWFProps rest

/-- Declared property names are duplicate-free. -/
def nodupKeysS : List (String × Schema) → Bool
  | [] => true
  | (k, _) :: rest => !(rest.any (fun ps => ps.1 = k)) && nodupKeysS rest

end

mutual

/-- No object node of the schema declares either URL-cleaned
repository property. -/
def noRepos : Schema → Bool
  | .sObject props _ _ => noReposProps props
  | .sArray e => noRepos e
  | _ => true

/-- No property is repo-named, recursively. -/
def noReposProps : List (String × Schema) → Bool
  | [] => true
  | (p, s) :: rest => !(reposNames.contains p) && noRepos s && noReposProps rest

end

/-- No object node strictly below the top level declares either
URL-cleaned repository property (the top level itself may). -/
def noReposChildren : Schema → Bool
  | .sObject props _ _ => props.all (fun ps => noRepos ps.2)
  | _ => true

/-- The value the repair loop assigns to the declared property `p`
(read off the branches of `fixProps`; used to characterize the loop's
output). -/
def assignedValue (u d : JValue) (p : String) (s : Schema) : JValue :=
  let userValue := jgetD u p
  let defaultValue := jgetD d p
  if userValue = .undef ∧ ¬ hasKey u p then defaultValue
  else if p ∈ reposNames ∧ isArr userValue then cleanRepoArray userValue
  else if ¬ check (createSinglePropertySchema p s) (.obj [(p, userValue)]) then defaultValue
  else if isObjectSchema s then (fixLineByLine userValue defaultValue s).1
  else fixSingleProperty s p userValue defaultValue

/-- The changed-keys contribution of one declared property in the
repair loop (read off the branches of `fixProps`). -/
def changedContrib (u d : JValue) (p : String) (s : Schema) : List String :=
  let userValue := jgetD u p
  let defaultValue := jgetD d p
  if userValue = .undef ∧ ¬ hasKey u p then []
  else if p ∈ reposNames ∧ isArr userValue then []
  else if ¬ check (createSinglePropertySchema p s) (.obj [(p, userValue)]) then [p]
  else if isObjectSchema s then
    (fixLineByLine userValue defaultValue s).2.map (fun nc => p ++ "." ++ nc)
  else
    let validated := fixSingleProperty s p userValue defaultValue
    if userValue ≠ .undef ∧ validated ≠ userValue then [p] else []

/-!
## Basic lemmas about field lists
-/

theorem jget_setKey_self (l : List (String × JValue)) (k : String) (v : JValue) :
    jget (setKey l k v) k = some v := by
  induction l with
  | nil => simp [setKey, jget]
  | cons hd tl ih =>
    obtain ⟨k', v'⟩ := hd
    by_cases h : k' = k <;> simp [setKey, jget, h, ih]

theorem jget_setKey_ne (l : List (String × JValue)) {k' k : String}
    (h : k' ≠ k) (v : JValue) : jget (setKey l k' v) k = jget l k := by
  induction l with
  | nil => simp [setKey, jget, h]
  | cons hd tl ih =>
    obtain ⟨k1, v1⟩ := hd
    by_cases h1 : k1 = k' <;> simp [setKey, jget, h1, ih]
    · subst h1; simp [h, jget]

theorem jget_eq_none_of_not_mem {l : List (String × JValue)} {k : String}
    (h : k ∉ l.map Prod.fst) : jget l k = none := by
  induction l with
  | nil => simp [jget]
  | cons hd tl ih =>
    obtain ⟨k', v'⟩ := hd
    simp only [List.map_cons, List.mem_cons] at h
    push_neg at h
    simp [jget, Ne.symm h.1, ih h.2]

theorem mergeStep_jget_ne (t res : List (String × JValue)) {k1 k : String}
    (h : k1 ≠ k) (sv : JValue) :
    jget (mergeStep t res k1 sv) k = jget res k := by
  cases sv <;> simp [mergeStep, jget_setKey_ne _ h]
  rcases jget t k1 with _ | tv
  · simp [jget_setKey_ne _ h]
  · cases tv <;> simp [jget_setKey_ne _ h]

/-- Lookup characterization of the `deepMerge` loop: on a
duplicate-free source, a key bound in the source to a defined value is
replaced (recursively merged when both sides are non-array objects),
and every other key keeps its `result` binding. -/
theorem mergeLoop_jget (t : List (String × JValue)) (k : String) :
    ∀ (src res : List (String × JValue)), (src.map Prod.fst).Nodup →
      jget (mergeLoop t res src) k =
        (match jget src k with
         | none => jget res k
         | some .undef => jget res k
         | some (.obj sf) =>
           (match jget t k with
            | some (.obj tf) => some (.obj (mergeLoop tf tf sf))
            | _ => some (.obj sf))
         | some sv => some sv) := by
  intro src
  induction src with
  | nil => intro res _; simp [mergeLoop, jget]
  | cons hd tl ih =>
    intro res h
    obtain ⟨k1, sv1⟩ := hd
    simp only [List.map_cons, List.nodup_cons] at h
    obtain ⟨hk1, htl⟩ := h
    rw [mergeLoop, ih _ htl]
    by_cases hkk : k1 = k
    · subst hkk
      have hnone : jget tl k1 = none := jget_eq_none_of_not_mem hk1
      rw [hnone]
      simp only [jget, if_pos rfl]
      cases sv1 <;> simp [mergeStep, jget_setKey_self]
      rcases jget t k1 with _ | tv
      · simp [jget_setKey_self]
      · cases tv <;> simp [jget_setKey_self]
    · have h2 : jget ((k1, sv1) :: tl) k = jget tl k := by simp [jget, hkk]
      rw [h2]
      have hstep := mergeStep_jget_ne t res hkk sv1
      rcases hjt : jget tl k with _ | v
      · simp [hstep]
      · cases v <;> simp [hstep]

/-- Validating `{p: v}` against the synthetic one-property schema is
exactly validating `v` against the child schema. -/
theorem check_singleProp (p : String) (s : Schema) (v : JValue) :
    check (createSinglePropertySchema p s) (.obj [(p, v)]) = check s v := by
  simp [createSinglePropertySchema, check, checkProps, jget]

/-!
## Claim theorems: the deep merger and the line-by-line repairer
-/

/-- C4: for each key of `override` bound to a defined value, the merge
recurses when both the `base` and `override` values are non-array
objects and otherwise replaces the base value outright (arrays whole);
keys absent from `override` or bound to `undefined` keep the base
value; and the spec's concrete example
`merge({a: {b: 1, c: 2}, d: 3}, {a: {b: 5}}) = {a: {b: 5, c: 2}, d: 3}`
holds. -/
theorem deepMerge_override_semantics :
    (∀ (t s : List (String × JValue)), (s.map Prod.fst).Nodup → ∀ k,
      jget (deepMerge t s) k =
        (match jget s k with
         | none => jget t k
         | some .undef => jget t k
         | some (.obj sf) =>
           (match jget t k with
            | some (.obj tf) => some (.obj (deepMerge tf sf))
            | _ => some (.obj sf))
         | some v => some v)) ∧
    deepMerge [("a", .obj [("b", .num 1), ("c", .num 2)]), ("d", .num 3)]
        [("a", .obj [("b", .num 5)])] =
      [("a", .obj [("b", .num 5), ("c", .num 2)]), ("d", .num 3)] := by
  constructor
  · intro t s h k
    exact mergeLoop_jget t k s t h
  · decide

/-- Witness for C4 at a concrete base/override pair. -/
theorem deepMerge_override_semantics_witness :
    (([("a", JValue.obj [("b", JValue.num 5)]), ("e", JValue.undef)].map Prod.fst).Nodup) ∧
    (∀ k,
      jget (deepMerge [("a", JValue.obj [("b", JValue.num 1), ("c", JValue.num 2)]), ("d", JValue.num 3)]
        [("a", JValue.obj [("b", JValue.num 5)]), ("e", JValue.undef)]) k =
        (match jget [("a", JValue.obj [("b", JValue.num 5)]), ("e", JValue.undef)] k with
         | none => jget [("a", JValue.obj [("b", JValue.num 1), ("c", JValue.num 2)]), ("d", JValue.num 3)] k
         | some .undef => jget [("a", JValue.obj [("b", JValue.num 1), ("c", JValue.num 2)]), ("d", JValue.num 3)] k
         | some (.obj sf) =>
           (match jget [("a", JValue.obj [("b", JValue.num 1), ("c", JValue.num 2)]), ("d", JValue.num 3)] k with
            | some (.obj tf) => some (.obj (deepMerge tf sf))
            | _ => some (.obj sf))
         | some v => some v)) :=
  ⟨by decide, deepMerge_override_semantics.1 _ _ (by decide)⟩

/-- C5: when the candidate is not an object (in the JS sense) or the
schema is not an object node, the node is treated atomically: a
validating candidate is returned unchanged with no changed keys, and
anything else is replaced by the default with changed keys exactly
`["<entire_object>"]`. -/
theorem fixLineByLine_atomic_node :
    ∀ (u d : JValue) (s : Schema),
      isObjectSchema s = false ∨ isObjLike u = false →
      fixLineByLine u d s =
        if check s u then (u, []) else (d, ["<entire_object>"]) := by
  intro u d s h
  cases s
  case sObject props req addl =>
    rcases h with h | h
    · simp [isObjectSchema] at h
    · simp [fixLineByLine, h]
  all_goals simp [fixLineByLine]

/-- Witness for C5 at a concrete non-object candidate. -/
theorem fixLineByLine_atomic_node_witness :
    (isObjectSchema Schema.sString = false ∨ isObjLike (JValue.num 3) = false) ∧
    fixLineByLine (JValue.num 3) (JValue.str "d") Schema.sString =
      (if check Schema.sString (JValue.num 3)
       then (JValue.num 3, []) else (JValue.str "d", ["<entire_object>"])) :=
  ⟨Or.inl rfl, fixLineByLine_atomic_node _ _ _ (Or.inl rfl)⟩

/-- C6 counterexample: for the field `tags` with element schema
`string`, the candidate array `["a", 1]` contains one valid and one
invalid element; the repairer replaces the whole array with the default
`["d"]` (recording `tags` as changed) instead of dropping the invalid
element and keeping `["a"]`. -/
theorem fixLineByLine_array_elements_not_dropped :
    fixLineByLine (JValue.obj [("tags", .arr [.str "a", .num 1])])
        (JValue.obj [("tags", .arr [.str "d"])])
        (Schema.sObject [("tags", Schema.sArray Schema.sString)] ["tags"] false) =
      (JValue.obj [("tags", .arr [.str "d"])], ["tags"]) ∧
    jgetD (fixLineByLine (JValue.obj [("tags", .arr [.str "a", .num 1])])
        (JValue.obj [("tags", .arr [.str "d"])])
        (Schema.sObject [("tags", Schema.sArray Schema.sString)] ["tags"] false)).1 "tags" ≠
      JValue.arr [.str "a"] := by
  exact ⟨by decide, by decide⟩

/-- C6 amended: an array-valued field (other than the two URL-cleaned
repository properties) is validated whole against its array schema: a
fully valid array is kept unchanged, and an array with any invalid
element is replaced entirely by the default value and recorded in
changed keys — elements are never dropped individually. -/
theorem fixLineByLine_array_whole :
    ∀ (name : String) (e : Schema) (req : List String) (addl : Bool)
      (d : JValue) (fs : List (String × JValue)) (xs : List JValue),
      name ∉ reposNames →
      jget fs name = some (.arr xs) →
      fixLineByLine (.obj fs) d (.sObject [(name, .sArray e)] req addl) =
        (.obj (setKey (spreadFields d) name
          (if xs.all (fun x => check e x) then .arr xs else jgetD d name)),
         if xs.all (fun x => check e x) then [] else [name]) := by
  intro name e req addl d fs xs hname hget
  have harr : jgetD (.obj fs) name = .arr xs := by simp [jgetD, hget]
  simp only [fixLineByLine, isObjLike, if_pos]
  rw [fixProps, harr]
  rw [check_singleProp]
  by_cases hall : xs.all (fun x => check e x)
  · have hc : check (Schema.sArray e) (JValue.arr xs) = true := by
      simp only [check]; exact hall
    have hfix : fixSingleProperty (Schema.sArray e) name (JValue.arr xs) (jgetD d name)
        = JValue.arr xs := by
      simp only [fixSingleProperty, check_singleProp]
      simp [hc]
    simp [fixProps, hname, isObjectSchema, hc, hfix, hall]
  · have hall' : (xs.all fun x => check e x) = false := by
      simpa using hall
    have hc : check (Schema.sArray e) (JValue.arr xs) = false := by
      simp [check, hall']
    simp [fixProps, hname, hc, hall']

/-- Witness for C6 amended at a concrete invalid array. -/
theorem fixLineByLine_array_whole_witness :
    ("tags" ∉ reposNames) ∧
    jget [("tags", JValue.arr [.str "a", .num 1])] "tags" = some (.arr [.str "a", .num 1]) ∧
    fixLineByLine (.obj [("tags", JValue.arr [.str "a", .num 1])])
        (JValue.obj [("tags", .arr [.str "d"])])
        (.sObject [("tags", .sArray .sString)] ["tags"] false) =
      (.obj (setKey (spreadFields (JValue.obj [("tags", .arr [.str "d"])])) "tags"
        (if [JValue.str "a", JValue.num 1].all (fun x => check .sString x)
         then JValue.arr [.str "a", .num 1]
         else jgetD (JValue.obj [("tags", .arr [.str "d"])]) "tags")),
       if [JValue.str "a", JValue.num 1].all (fun x => check .sString x)
       then [] else ["tags"]) :=
  ⟨by decide, by decide, fixLineByLine_array_whole _ _ _ _ _ _ _ (by decide) (by decide)⟩

/-- C10: for the two repository-list properties, an array candidate is
accepted without any validation against the declared child schema: each
element is string-coerced and passed through `cleanGitHubUrl`, and
nothing is recorded in changed keys. -/
theorem fixLineByLine_repos_passthrough :
    ∀ (name : String) (sub : Schema) (req : List String) (addl : Bool)
      (d : JValue) (fs : List (String × JValue)) (xs : List JValue),
      name ∈ reposNames →
      jget fs name = some (.arr xs) →
      fixLineByLine (.obj fs) d (.sObject [(name, sub)] req addl) =
        (.obj (setKey (spreadFields d) name
          (.arr (xs.map (fun x => .str (cleanGitHubUrl (jsToString x)))))), []) := by
  intro name sub req addl d fs xs hname hget
  have harr : jgetD (.obj fs) name = .arr xs := by simp [jgetD, hget]
  simp only [fixLineByLine, isObjLike, if_pos]
  rw [fixProps, harr]
  simp [hname, isArr, cleanRepoArray, fixProps]

/-!
## Claim theorems: the persistence layer and the migration importer
-/

/-- The catch block always removes a dangling temp file. -/
theorem wCatch_temp (fs : FS) : (wCatch fs).temp = none := by
  rcases fs with ⟨pr, bk, tp, ex⟩
  rcases bk with _ | b <;> rcases pr with _ | p <;> rcases tp with _ | t <;>
    simp [wCatch]

/-- When the backup exists and the primary is missing, the catch block
copies the backup back over the primary. -/
theorem wCatch_restore (fs : FS) (b : FileContent)
    (hb : fs.backup = some b) (hp : fs.primary = none) :
    (wCatch fs).primary = some b ∧ (wCatch fs).backup = some b := by
  rcases fs with ⟨pr, bk, tp, ex⟩
  simp_all
  rcases tp with _ | t <;> simp [wCatch, hb, hp]

/-- C1: whenever the write's try block throws (in state `mid`, with
error `e`), the call runs the cleanup and re-raises the original error:
the final state is `wCatch mid` and the returned error is `e`; the
cleanup leaves no temp file; and if at catch time the backup exists
while the primary is missing, the primary is restored from the
backup. -/
theorem writeReliverseConfig_failure_cleanup :
    ∀ (fs : FS) (config : JValue) (schema : Schema) (p : Plan) (mid : FS) (e : WErr),
      wTry fs config schema p = (mid, some e) →
      writeReliverseConfig fs config schema p = (wCatch mid, some e) ∧
      (wCatch mid).temp = none ∧
      (∀ b, mid.backup = some b → mid.primary = none →
        (wCatch mid).primary = some b ∧ (wCatch mid).backup = some b) := by
  intro fs config schema p mid e h
  exact ⟨by simp [writeReliverseConfig, h], wCatch_temp mid,
    fun b hb hp => wCatch_restore mid b hb hp⟩

/-- Witness for C1: a run whose rename step fails after the backup was
taken; the dangling temp is removed, the original primary survives, and
the `io` error is re-raised. -/
theorem writeReliverseConfig_failure_cleanup_witness :
    wTry ⟨some (.doc (.obj [("a", .num 1)])), none, none, none⟩ (.obj [("a", .num 1)])
        (.sObject [] [] true) ⟨false, false, true, false⟩ =
      (⟨some (.doc (.obj [("a", .num 1)])), some (.doc (.obj [("a", .num 1)])),
        some (.doc (.obj [("a", .num 1)])), none⟩, some .io) ∧
    (writeReliverseConfig ⟨some (.doc (.obj [("a", .num 1)])), none, none, none⟩
        (.obj [("a", .num 1)]) (.sObject [] [] true) ⟨false, false, true, false⟩ =
      (wCatch ⟨some (.doc (.obj [("a", .num 1)])), some (.doc (.obj [("a", .num 1)])),
        some (.doc (.obj [("a", .num 1)])), none⟩, some .io) ∧
     (wCatch ⟨some (.doc (.obj [("a", .num 1)])), some (.doc (.obj [("a", .num 1)])),
        some (.doc (.obj [("a", .num 1)])), none⟩).temp = none ∧
     (∀ b, (⟨some (.doc (.obj [("a", .num 1)])), some (.doc (.obj [("a", .num 1)])),
        some (.doc (.obj [("a", .num 1)])), none⟩ : FS).backup = some b →
        (⟨some (.doc (.obj [("a", .num 1)])), some (.doc (.obj [("a", .num 1)])),
          some (.doc (.obj [("a", .num 1)])), none⟩ : FS).primary = none →
        (wCatch ⟨some (.doc (.obj [("a", .num 1)])), some (.doc (.obj [("a", .num 1)])),
          some (.doc (.obj [("a", .num 1)])), none⟩).primary = some b ∧
        (wCatch ⟨some (.doc (.obj [("a", .num 1)])), some (.doc (.obj [("a", .num 1)])),
          some (.doc (.obj [("a", .num 1)])), none⟩).backup = some b)) :=
  ⟨by decide, writeReliverseConfig_failure_cleanup _ _ _ _ _ _ (by decide)⟩

/-- C2 counterexample: the external source parses to
`{projectLicense: 5}`; the resulting update fails validation (the
schema requires a string `projectName`), so `updateReliverseConfig`
returns `false` — yet the migration importer still deletes the external
source document. -/
theorem migrate_deletes_source_on_failed_write :
    (updateReliverseConfig ⟨none, none, none, some (.doc (.obj [("projectLicense", .num 5)]))⟩
        [("projectLicense", .num 5)]
        (.sObject [("projectName", .sString)] ["projectName"] false) noFail).2 = false ∧
    (migrateReliverseConfig ⟨none, none, none, some (.doc (.obj [("projectLicense", .num 5)]))⟩
        (.sObject [("projectName", .sString)] ["projectName"] false) noFail).external = none := by
  exact ⟨by decide, by decide⟩

/-- C2 amended: the migration importer deletes the external source
document whenever the source file was read and parsed to an object,
regardless of whether the write into the current config path succeeded;
only a failure to read or parse the source (caught before the update)
prevents the deletion. -/
theorem migrate_deletes_parsed_source :
    ∀ (fs : FS) (schema : Schema) (p : Plan) (v : JValue),
      fs.external = some (.doc v) → isObjLike v = true →
      (migrateReliverseConfig fs schema p).external = none := by
  intro fs schema p v hext hobj
  simp [migrateReliverseConfig, hext, parseJSONCF, hobj]

/-- Witness for C2 amended: a successful-migration run also ends with
the source deleted. -/
theorem migrate_deletes_parsed_source_witness :
    (⟨none, none, none, some (.doc (.obj []))⟩ : FS).external = some (.doc (.obj [])) ∧
    isObjLike (.obj []) = true ∧
    (migrateReliverseConfig ⟨none, none, none, some (.doc (.obj []))⟩
        (.sObject [] [] true) noFail).external = none :=
  ⟨rfl, rfl, migrate_deletes_parsed_source _ _ _ _ rfl rfl⟩

/-- C8: for a document that validates against the schema (any schema
that rejects the empty object, as the engine's own schema does — the
read path treats a literal `{}` as an absent config), writing it and
then reading the same path returns the identical document; file
contents are modelled up to parse, which absorbs the claim's "modulo
stable key order and injected comments". -/
theorem write_read_roundtrip :
    ∀ (fs : FS) (l : List (String × JValue)) (dc : JValue) (schema : Schema),
      check schema (.obj l) = true →
      check schema (.obj []) = false →
      (readReliverseConfig (writeReliverseConfig fs (.obj l) schema noFail).1 dc schema).2 =
        some (.obj l) := by
  intro fs l dc schema hval hempty
  have hne : ¬ (JValue.obj l = JValue.obj []) := by
    intro h; rw [h, hempty] at hval; exact Bool.noConfusion hval
  have hw : (writeReliverseConfig fs (.obj l) schema noFail).1 =
      ⟨some (.doc (.obj l)), none, none, fs.external⟩ := by
    rcases fs with ⟨pr, bk, tp, ex⟩
    rcases pr with _ | pc <;> rcases bk with _ | b <;>
      simp [writeReliverseConfig, wTry, hval, atomicCommit, commitAfterBackup, noFail]
  rw [hw]
  simp [readReliverseConfig, parseReliverseFile, hne, isObjLike, hval]

/-- Witness for C8 at a concrete document and schema. -/
theorem write_read_roundtrip_witness :
    check (.sObject [("projectName", .sString)] ["projectName"] false)
        (.obj [("projectName", .str "x")]) = true ∧
    check (.sObject [("projectName", .sString)] ["projectName"] false) (.obj []) = false ∧
    (readReliverseConfig
        (writeReliverseConfig ⟨none, none, none, none⟩ (.obj [("projectName", .str "x")])
          (.sObject [("projectName", .sString)] ["projectName"] false) noFail).1
        DEFAULT_CONFIG
        (.sObject [("projectName", .sString)] ["projectName"] false)).2 =
      some (.obj [("projectName", .str "x")]) :=
  ⟨by decide, by decide, write_read_roundtrip _ _ _ _ (by decide) (by decide)⟩

/-- C7 counterexample: a schema whose nested object declares
`customUserFocusedRepos` as an array of the literal `"git+x"`, with a
complete, schema-valid default equal to the candidate.  The first
repair pass silently URL-cleans the nested array to `["x"]` (recording
nothing); the second pass then finds the nested object invalid and
replaces it, so the second pass's changed keys are `["outer"]`, not
`[]`. -/
theorem fixLineByLine_not_idempotent :
    schemaWF (.sObject [("outer", .sObject [("customUserFocusedRepos",
        .sArray (.sLiteral "git+x"))] ["customUserFocusedRepos"] false)] ["outer"] false) = true ∧
    defaultOk
        (.sObject [("outer", .sObject [("customUserFocusedRepos",
            .sArray (.sLiteral "git+x"))] ["customUserFocusedRepos"] false)] ["outer"] false)
        (.obj [("outer", .obj [("customUserFocusedRepos", .arr [.str "git+x"])])]) = true ∧
    (fixLineByLine
        (fixLineByLine (.obj [("outer", .obj [("customUserFocusedRepos", .arr [.str "git+x"])])])
            (.obj [("outer", .obj [("customUserFocusedRepos", .arr [.str "git+x"])])])
            (.sObject [("outer", .sObject [("customUserFocusedRepos",
                .sArray (.sLiteral "git+x"))] ["customUserFocusedRepos"] false)] ["outer"] false)).1
        (.obj [("outer", .obj [("customUserFocusedRepos", .arr [.str "git+x"])])])
        (.sObject [("outer", .sObject [("customUserFocusedRepos",
            .sArray (.sLiteral "git+x"))] ["customUserFocusedRepos"] false)] ["outer"] false)).2
      = ["outer"] ∧
    (["outer"] : List String) ≠ [] := by
  exact ⟨by decide, by decide, by decide, by decide⟩

/-- C3 counterexample: primary parses to `{projectName: 42}` (invalid;
the merge under defaults keeps the invalid `42`, so layer 2 fails),
line-by-line repair would produce a valid document, and the backup
holds the different valid document `{projectName: "backup"}`.  The
claimed order (repair before backup) yields the repaired document; the
code restores the backup instead — the two readers disagree. -/
theorem composedRead_order_mismatch :
    (composedRead ⟨some (.doc (.obj [("projectName", .num 42)])),
        some (.doc (.obj [("projectName", .str "backup")])), none, none⟩
        DEFAULT_CONFIG (.sObject [("projectName", .sString)] ["projectName"] true)).2 ≠
    claimOrderRead ⟨some (.doc (.obj [("projectName", .num 42)])),
        some (.doc (.obj [("projectName", .str "backup")])), none, none⟩
        DEFAULT_CONFIG (.sObject [("projectName", .sString)] ["projectName"] true) := by
  decide

/-- C3 amended: on a parsed-but-invalid primary document the composed
reader stops at the first successful layer in the order accept →
merge-defaults → restore-backup → line-by-line repair → give up (the
backup restore is attempted inside `readReliverseConfig` before the
caller's `parseAndFixConfig` repair fallback runs). -/
theorem composedRead_recovery_order :
    ∀ (fs : FS) (dc : JValue) (schema : Schema) (l : List (String × JValue)),
      fs.primary = some (.doc (.obj l)) → l ≠ [] →
      check schema (.obj l) = false →
      (composedRead fs dc schema).2 =
        (if check schema (mergeWithDefaults dc (.obj l))
         then some (mergeWithDefaults dc (.obj l))
         else
           match backupValidDoc fs schema with
           | some bv => some bv
           | none =>
             if check schema (fixLineByLine (.obj l) dc schema).1
             then some (fixLineByLine (.obj l) dc schema).1 else none) := by
  intro fs dc schema l hp hl hcheck
  have hne : ¬ (JValue.obj l = JValue.obj []) := by simp [hl]
  have hparse : parseReliverseFile (.doc (.obj l)) schema = some (.obj l, false) := by
    simp [parseReliverseFile, hne, isObjLike, hcheck]
  by_cases hm : check schema (mergeWithDefaults dc (.obj l)) = true
  · simp [composedRead, readReliverseConfig, hp, hparse, hm]
  · have hm' : check schema (mergeWithDefaults dc (.obj l)) = false := by
      simpa using hm
    have hfix : parseAndFixConfig fs dc schema =
        (if check schema (fixLineByLine (.obj l) dc schema).1
         then ((writeReliverseConfig fs (fixLineByLine (.obj l) dc schema).1 schema noFail).1,
               some (fixLineByLine (.obj l) dc schema).1)
         else (fs, none)) := by
      simp [parseAndFixConfig, hp, parseJSONCF, isObjLike, hcheck]
    rcases hbk : fs.backup with _ | bc
    · simp only [composedRead, readReliverseConfig, hp, hparse, hm', Bool.false_eq_true,
        if_false, hbk]
      rw [hfix]
      simp [backupValidDoc, hbk]
      split <;> simp
    · rcases hpb : parseReliverseFile bc schema with _ | ⟨bv, valid⟩
      · simp only [composedRead, readReliverseConfig, hp, hparse, hm', Bool.false_eq_true,
          if_false, hbk, hpb]
        rw [hfix]
        simp [backupValidDoc, hbk, hpb]
        split <;> simp
      · cases valid
        · simp only [composedRead, readReliverseConfig, hp, hparse, hm', Bool.false_eq_true,
            if_false, hbk, hpb]
          rw [hfix]
          simp [backupValidDoc, hbk, hpb]
          split <;> simp
        · simp [composedRead, readReliverseConfig, hp, hparse, hm', hbk, hpb,
            backupValidDoc]

/-- Witness for C3 amended at the counterexample's filesystem state:
merge fails, the backup is valid, and the composed reader returns the
backup document. -/
theorem composedRead_recovery_order_witness :
    (⟨some (.doc (.obj [("projectName", .num 42)])),
        some (.doc (.obj [("projectName", .str "backup")])), none, none⟩ : FS).primary =
      some (.doc (.obj [("projectName", .num 42)])) ∧
    ([("projectName", JValue.num 42)] ≠ ([] : List (String × JValue))) ∧
    check (.sObject [("projectName", .sString)] ["projectName"] true)
        (.obj [("projectName", .num 42)]) = false ∧
    (composedRead ⟨some (.doc (.obj [("projectName", .num 42)])),
        some (.doc (.obj [("projectName", .str "backup")])), none, none⟩
        DEFAULT_CONFIG (.sObject [("projectName", .sString)] ["projectName"] true)).2 =
      (if check (.sObject [("projectName", .sString)] ["projectName"] true)
            (mergeWithDefaults DEFAULT_CONFIG (.obj [("projectName", .num 42)]))
       then some (mergeWithDefaults DEFAULT_CONFIG (.obj [("projectName", .num 42)]))
       else
         match backupValidDoc ⟨some (.doc (.obj [("projectName", .num 42)])),
             some (.doc (.obj [("projectName", .str "backup")])), none, none⟩
             (.sObject [("projectName", .sString)] ["projectName"] true) with
         | some bv => some bv
         | none =>
           if check (.sObject [("projectName", .sString)] ["projectName"] true)
                (fixLineByLine (.obj [("projectName", .num 42)]) DEFAULT_CONFIG
                  (.sObject [("projectName", .sString)] ["projectName"] true)).1
           then some (fixLineByLine (.obj [("projectName", .num 42)]) DEFAULT_CONFIG
                  (.sObject [("projectName", .sString)] ["projectName"] true)).1 else none) :=
  ⟨rfl, by decide, by decide,
    composedRead_recovery_order _ _ _ _ rfl (by decide) (by decide)⟩

/-- Witness for C10: the declared child schema is `number`, which the
string array flatly violates, and the cleaning rewrites the element —
yet the array is kept and no change recorded. -/
theorem fixLineByLine_repos_passthrough_witness :
    ("customUserFocusedRepos" ∈ reposNames) ∧
    jget [("customUserFocusedRepos", JValue.arr [.str " git+github.com/a/b.git "])]
        "customUserFocusedRepos" = some (.arr [.str " git+github.com/a/b.git "]) ∧
    fixLineByLine (.obj [("customUserFocusedRepos", JValue.arr [.str " git+github.com/a/b.git "])])
        (JValue.obj []) (.sObject [("customUserFocusedRepos", .sNumber)] [] false) =
      (.obj (setKey (spreadFields (JValue.obj [])) "customUserFocusedRepos"
        (.arr ([JValue.str " git+github.com/a/b.git "].map
          (fun x => .str (cleanGitHubUrl (jsToString x)))))), []) :=
  ⟨by decide, by decide,
    fixLineByLine_repos_passthrough _ _ _ _ _ _ _ (by decide) (by decide)⟩

/-!
## Structure of the repair loop

`fixProps` on a cons is one assignment (`assignedValue`) plus one
changed-keys contribution (`changedContrib`); everything about the
idempotence of repair follows from this decomposition.
-/

theorem check_undef (s : Schema) : check s .undef = false := by
  cases s <;> simp [check]

theorem mem_of_jget_eq_some {l : List (String × JValue)} {k : String} {v : JValue}
    (h : jget l k = some v) : k ∈ l.map Prod.fst := by
  induction l with
  | nil => simp [jget] at h
  | cons hd tl ih =>
    obtain ⟨k1, v1⟩ := hd
    by_cases hk : k1 = k
    · subst hk; simp
    · rw [jget, if_neg hk] at h
      simp [ih h]

theorem jget_eq_some_of_mem {l : List (String × JValue)} {k : String}
    (h : k ∈ l.map Prod.fst) : ∃ v, jget l k = some v := by
  induction l with
  | nil => simp at h
  | cons hd tl ih =>
    obtain ⟨k1, v1⟩ := hd
    by_cases hk : k1 = k
    · subst hk; exact ⟨v1, by simp [jget]⟩
    · simp only [List.map_cons, List.mem_cons] at h
      rcases h with h | h
      · exact absurd h.symm hk
      · obtain ⟨v, hv⟩ := ih h
        exact ⟨v, by simp [jget, hk, hv]⟩

theorem any_keys_of_jget {l : List (String × JValue)} {k : String} {v : JValue}
    (h : jget l k = some v) : (l.any fun kv => kv.1 = k) = true := by
  have := mem_of_jget_eq_some h
  simp only [List.any_eq_true]
  simp only [List.mem_map] at this
  obtain ⟨kv, hkv, hfst⟩ := this
  exact ⟨kv, hkv, by simp [hfst]⟩

theorem mem_setKey {l : List (String × JValue)} {k : String} {v : JValue} :
    ∀ kv ∈ setKey l k v, kv ∈ l ∨ kv.1 = k := by
  induction l with
  | nil => intro kv hkv; simp [setKey] at hkv; simp [hkv]
  | cons hd tl ih =>
    obtain ⟨k1, v1⟩ := hd
    intro kv hkv
    by_cases hk : k1 = k
    · rw [setKey, if_pos hk] at hkv
      rcases List.mem_cons.mp hkv with h | h
      · right; simp [h]
      · left; exact List.mem_cons_of_mem _ h
    · rw [setKey, if_neg hk] at hkv
      rcases List.mem_cons.mp hkv with h | h
      · left; simp [h]
      · rcases ih kv h with h' | h'
        · left; exact List.mem_cons_of_mem _ h'
        · right; exact h'

theorem checkProps_mem {props : List (String × Schema)} {fields : List (String × JValue)}
    (h : checkProps props fields = true) {p : String} {s : Schema}
    (hmem : (p, s) ∈ props) {v : JValue} (hv : jget fields p = some v) :
    check s v = true := by
  induction props with
  | nil => simp at hmem
  | cons hd tl ih =>
    obtain ⟨p1, s1⟩ := hd
    rw [checkProps, Bool.and_eq_true] at h
    rcases List.mem_cons.mp hmem with heq | hmem'
    · obtain ⟨h1, h2⟩ := Prod.mk.injEq .. ▸ heq
      injection heq with hp hs
      subst hp; subst hs
      have := h.1
      rw [hv] at this
      exact this
    · exact ih h.2 hmem'

theorem defaultOk_check {s : Schema} {v : JValue} (h : defaultOk s v = true) :
    check s v = true := by
  cases s <;> cases v <;> simp_all [defaultOk, Bool.and_eq_true]

theorem defaultOkProps_mem {props : List (String × Schema)}
    {fields : List (String × JValue)}
    (h : defaultOkProps props fields = true) {p : String} {s : Schema}
    (hmem : (p, s) ∈ props) :
    ∃ v, jget fields p = some v ∧ defaultOk s v = true := by
  induction props with
  | nil => simp at hmem
  | cons hd tl ih =>
    obtain ⟨p1, s1⟩ := hd
    rw [defaultOkProps, Bool.and_eq_true] at h
    rcases List.mem_cons.mp hmem with heq | hmem'
    · injection heq with hp hs
      subst hp; subst hs
      have h1 := h.1
      rcases hv : jget fields p with _ | v
      · rw [hv] at h1; exact Bool.noConfusion h1
      · rw [hv] at h1; exact ⟨v, rfl, h1⟩
    · exact ih h.2 hmem'

theorem schemaWFProps_mem {props : List (String × Schema)}
    (h : schemaWFProps props = true) {p : String} {s : Schema}
    (hmem : (p, s) ∈ props) : schemaWF s = true := by
  induction props with
  | nil => simp at hmem
  | cons hd tl ih =>
    obtain ⟨p1, s1⟩ := hd
    rw [schemaWFProps, Bool.and_eq_true] at h
    rcases List.mem_cons.mp hmem with heq | hmem'
    · injection heq with hp hs; subst hs; exact h.1
    · exact ih h.2 hmem'

theorem noReposProps_mem {props : List (String × Schema)}
    (h : noReposProps props = true) {p : String} {s : Schema}
    (hmem : (p, s) ∈ props) : p ∉ reposNames ∧ noRepos s = true := by
  induction props with
  | nil => simp at hmem
  | cons hd tl ih =>
    obtain ⟨p1, s1⟩ := hd
    rw [noReposProps, Bool.and_eq_true, Bool.and_eq_true] at h
    rcases List.mem_cons.mp hmem with heq | hmem'
    · injection heq with hp hs; subst hp; subst hs
      refine ⟨?_, h.1.2⟩
      have := h.1.1
      simpa using this
    · exact ih h.2 hmem'

theorem nodupKeysS_cons {p : String} {s : Schema} {rest : List (String × Schema)}
    (h : nodupKeysS ((p, s) :: rest) = true) :
    p ∉ rest.map Prod.fst ∧ nodupKeysS rest = true := by
  rw [nodupKeysS, Bool.and_eq_true] at h
  refine ⟨?_, h.2⟩
  have h1 := h.1
  simp only [Bool.not_eq_true', List.any_eq_false, decide_eq_true_eq] at h1
  intro hmem
  simp only [List.mem_map] at hmem
  obtain ⟨ps, hps, hfst⟩ := hmem
  exact absurd hfst (h1 ps hps)

/-- The repair loop on a cons: assign `assignedValue` for the head
property, contribute `changedContrib`, continue on the tail. -/
theorem fixProps_cons_eq (u d : JValue) (p : String) (s : Schema)
    (tl : List (String × Schema)) (res : List (String × JValue)) :
    fixProps u d ((p, s) :: tl) res =
      ((fixProps u d tl (setKey res p (assignedValue u d p s))).1,
       changedContrib u d p s ++ (fixProps u d tl (setKey res p (assignedValue u d p s))).2) := by
  rw [fixProps]
  simp only [assignedValue, changedContrib]
  split_ifs <;> rfl

/-- Keys not declared keep their accumulator binding. -/
theorem fixProps_fst_untouched (u d : JValue) :
    ∀ (props : List (String × Schema)) (res : List (String × JValue)) (k : String),
      k ∉ props.map Prod.fst →
      jget (fixProps u d props res).1 k = jget res k := by
  intro props
  induction props with
  | nil => intro res k _; simp [fixProps]
  | cons hd tl ih =>
    intro res k h
    obtain ⟨p, s⟩ := hd
    simp only [List.map_cons, List.mem_cons] at h
    push_neg at h
    rw [fixProps_cons_eq]
    simp only
    rw [ih _ k h.2, jget_setKey_ne _ (fun hh => h.1 hh.symm)]

/-- Each declared key of the loop's output holds its `assignedValue`
(for duplicate-free declared keys). -/
theorem fixProps_fst_assigned (u d : JValue) :
    ∀ (props : List (String × Schema)) (res : List (String × JValue))
      (p : String) (s : Schema),
      nodupKeysS props = true → (p, s) ∈ props →
      jget (fixProps u d props res).1 p = some (assignedValue u d p s) := by
  intro props
  induction props with
  | nil => intro res p s _ hmem; simp at hmem
  | cons hd tl ih =>
    intro res p s hnd hmem
    obtain ⟨p1, s1⟩ := hd
    obtain ⟨hnmem, hnd'⟩ := nodupKeysS_cons hnd
    rcases List.mem_cons.mp hmem with heq | hmem'
    · injection heq with hp hs; subst hp; subst hs
      rw [fixProps_cons_eq]
      simp only
      rw [fixProps_fst_untouched u d tl _ p hnmem, jget_setKey_self]
    · rw [fixProps_cons_eq]
      simp only
      exact ih _ p s hnd' hmem'

/-- Every field of the loop's output has a key from the accumulator or
from the declared properties. -/
theorem fixProps_fst_mem (u d : JValue) :
    ∀ (props : List (String × Schema)) (res : List (String × JValue)),
      ∀ kv ∈ (fixProps u d props res).1,
        kv.1 ∈ res.map Prod.fst ∨ kv.1 ∈ props.map Prod.fst := by
  intro props
  induction props with
  | nil =>
    intro res kv hkv
    simp only [fixProps] at hkv
    exact Or.inl (List.mem_map_of_mem _ hkv)
  | cons hd tl ih =>
    intro res kv hkv
    obtain ⟨p, s⟩ := hd
    rw [fixProps_cons_eq] at hkv
    simp only at hkv
    rcases ih _ kv hkv with h | h
    · simp only [List.mem_map] at h
      obtain ⟨kv', hkv', hfst⟩ := h
      rcases mem_setKey kv' hkv' with h' | h'
      · exact Or.inl (hfst ▸ List.mem_map_of_mem _ h')
      · right; simp [← hfst, h']
    · right; simp [h]

/-- The changed keys of the loop are the concatenated per-property
contributions (independent of the accumulator). -/
theorem fixProps_snd_eq (u d : JValue) :
    ∀ (props : List (String × Schema)) (res : List (String × JValue)),
      (fixProps u d props res).2 =
        (props.map (fun ps => changedContrib u d ps.1 ps.2)).flatten := by
  intro props
  induction props with
  | nil => intro res; simp [fixProps]
  | cons hd tl ih =>
    intro res
    obtain ⟨p, s⟩ := hd
    rw [fixProps_cons_eq]
    simp [ih]

theorem hasKey_false_of_jget_none {l : List (String × JValue)} {k : String}
    (h : jget l k = none) : (l.any fun kv => kv.1 = k) = false := by
  by_contra hc
  have hany : (l.any fun kv => kv.1 = k) = true := by simpa using hc
  have hmem : k ∈ l.map Prod.fst := by
    simp only [List.any_eq_true, decide_eq_true_eq] at hany
    obtain ⟨kv, hkv, heq⟩ := hany
    exact heq ▸ List.mem_map_of_mem _ hkv
  obtain ⟨v, hv⟩ := jget_eq_some_of_mem hmem
  rw [h] at hv
  exact Option.noConfusion hv

theorem isArr_cleanRepoArray {v : JValue} (h : isArr v = true) :
    isArr (cleanRepoArray v) = true := by
  cases v <;> simp_all [isArr, cleanRepoArray]

/-- A declared property contributes no changed key when its candidate
value is either a repo-named array or valid (with, in the object case,
a change-free nested repair). -/
theorem changedContrib_eq_nil {ufields : List (String × JValue)}
    (d : JValue) (p : String) (s : Schema)
    (hval : ∀ v, jget ufields p = some v →
      ((p ∈ reposNames ∧ isArr v = true) ∨ check s v = true))
    (hnested : ∀ v, jget ufields p = some v → check s v = true →
      isObjectSchema s = true → (fixLineByLine v (jgetD d p) s).2 = []) :
    changedContrib (.obj ufields) d p s = [] := by
  rcases hj : jget ufields p with _ | v
  · have huv : jgetD (.obj ufields) p = .undef := by simp [jgetD, hj]
    have hhk : hasKey (.obj ufields) p = false := hasKey_false_of_jget_none hj
    simp [changedContrib, huv, hhk]
  · have huv : jgetD (.obj ufields) p = v := by simp [jgetD, hj]
    have hhk : hasKey (.obj ufields) p = true := by
      simp only [hasKey]
      exact any_keys_of_jget hj
    rcases hval v hj with ⟨hrep, harr⟩ | hchk
    · simp [changedContrib, huv, hhk, hrep, harr]
    · have hvne : ¬ (v = JValue.undef) := by
        intro hh; rw [hh, check_undef] at hchk; exact Bool.noConfusion hchk
      have hsingle : check (createSinglePropertySchema p s) (.obj [(p, v)]) = true := by
        rw [check_singleProp]; exact hchk
      by_cases hrepos : p ∈ reposNames ∧ isArr v = true
      · simp [changedContrib, huv, hhk, hrepos]
      · by_cases hobj : isObjectSchema s = true
        · simp [changedContrib, huv, hhk, hvne, hrepos, hsingle, hobj,
            hnested v hj hchk hobj]
        · have hfix : fixSingleProperty s p v (jgetD d p) = v := by
            simp [fixSingleProperty, hsingle]
          simp [changedContrib, huv, hhk, hvne, hrepos, hsingle, hobj, hfix]

/-- The repair loop records nothing when no declared property
contributes a changed key. -/
theorem fixProps_changed_nil (u d : JValue) :
    ∀ (props : List (String × Schema)) (res : List (String × JValue)),
      (∀ p s, (p, s) ∈ props → changedContrib u d p s = []) →
      (fixProps u d props res).2 = [] := by
  intro props res h
  rw [fixProps_snd_eq]
  induction props with
  | nil => simp
  | cons hd tl ih =>
    obtain ⟨p, s⟩ := hd
    simp only [List.map_cons, List.flatten_cons]
    rw [h p s (List.mem_cons_self _ _)]
    simp only [List.nil_append]
    exact ih (fun p' s' hm => h p' s' (List.mem_cons_of_mem _ hm))

/-- A schema-valid candidate is repaired without any changed key
(strong-induction form). -/
theorem fix_valid_changed_nil :
    ∀ (n : Nat) (s : Schema), sizeOf s ≤ n → ∀ (u d : JValue),
      check s u = true → (fixLineByLine u d s).2 = [] := by
  intro n
  induction n with
  | zero =>
    intro s hs
    exfalso
    cases s <;> simp at hs
  | succ n ih =>
    intro s hs u d hchk
    cases s with
    | sObject props req addl =>
      cases u with
      | null => simp [check] at hchk
      | undef => simp [check] at hchk
      | bool b => simp [check] at hchk
      | num m => simp [check] at hchk
      | str t => simp [check] at hchk
      | arr elems => simp [check] at hchk
      | obj ufields =>
        have hcp : checkProps props ufields = true := by
          simp only [check, Bool.and_eq_true] at hchk
          exact hchk.1.2
        have h2 : (fixProps (.obj ufields) d props (spreadFields d)).2 = [] := by
          apply fixProps_changed_nil
          intro p s' hmem
          apply changedContrib_eq_nil
          · intro v hv
            exact Or.inr (checkProps_mem hcp hmem hv)
          · intro v hv hcv _
            have hlt : sizeOf s' ≤ n := by
              have h1 := List.sizeOf_lt_of_mem hmem
              have h3 : sizeOf (Schema.sObject props req addl) ≤ n + 1 := hs
              simp only [Prod.mk.sizeOf_spec] at h1
              simp only [Schema.sObject.sizeOf_spec] at h3
              omega
            exact ih s' hlt v (jgetD d p) hcv
        simp [fixLineByLine, isObjLike, h2]
    | sString => simp [fixLineByLine, hchk]
    | sNumber => simp [fixLineByLine, hchk]
    | sBoolean => simp [fixLineByLine, hchk]
    | sLiteral lit => simp [fixLineByLine, hchk]
    | sEnum vals => simp [fixLineByLine, hchk]
    | sArray e => simp [fixLineByLine, hchk]

/-- A schema-valid candidate is repaired without any changed key. -/
theorem fix_valid_changed_nil' {s : Schema} {u : JValue} (d : JValue)
    (h : check s u = true) : (fixLineByLine u d s).2 = [] :=
  fix_valid_changed_nil (sizeOf s) s le_rfl u d h

theorem checkProps_intro {props : List (String × Schema)}
    {fields : List (String × JValue)}
    (h : ∀ p s, (p, s) ∈ props → ∀ v, jget fields p = some v → check s v = true) :
    checkProps props fields = true := by
  induction props with
  | nil => simp [checkProps]
  | cons hd tl ih =>
    obtain ⟨p1, s1⟩ := hd
    rw [checkProps, Bool.and_eq_true]
    constructor
    · rcases hj : jget fields p1 with _ | v
      · simp
      · exact h p1 s1 (List.mem_cons_self _ _) v hj
    · exact ih (fun p s hm v hv => h p s (List.mem_cons_of_mem _ hm) v hv)

/-- The value the loop assigns to a declared property is either a
repo-named array or valid, assuming the default holds a complete valid
value there and (in the object case) the nested repair output is
valid. -/
theorem assignedValue_spec (u d : JValue) (p : String) (s' : Schema)
    (hdv : defaultOk s' (jgetD d p) = true)
    (hobjcase : isObjectSchema s' = true →
      check s' (fixLineByLine (jgetD u p) (jgetD d p) s').1 = true) :
    (p ∈ reposNames ∧ isArr (assignedValue u d p s') = true) ∨
    check s' (assignedValue u d p s') = true := by
  by_cases h1 : jgetD u p = JValue.undef ∧ ¬ hasKey u p = true
  · right
    simp only [assignedValue, if_pos h1]
    exact defaultOk_check hdv
  · by_cases h2 : p ∈ reposNames ∧ isArr (jgetD u p) = true
    · left
      refine ⟨h2.1, ?_⟩
      simp only [assignedValue, if_neg h1, if_pos h2]
      exact isArr_cleanRepoArray h2.2
    · by_cases h3 : ¬ check (createSinglePropertySchema p s') (.obj [(p, jgetD u p)]) = true
      · right
        simp only [assignedValue, if_neg h1, if_neg h2, if_pos h3]
        exact defaultOk_check hdv
      · have hsingle : check (createSinglePropertySchema p s') (.obj [(p, jgetD u p)]) = true := by
          simpa using h3
        have huv : check s' (jgetD u p) = true := by
          rw [check_singleProp] at hsingle; exact hsingle
        by_cases h4 : isObjectSchema s' = true
        · right
          simp only [assignedValue, if_neg h1, if_neg h2, if_neg h3, if_pos h4]
          exact hobjcase h4
        · right
          simp only [assignedValue, if_neg h1, if_neg h2, if_neg h3, if_neg h4]
          simp [fixSingleProperty, hsingle, huv]

/-- The output of the repairer validates, for a well-formed schema with
no repo-named property anywhere and a complete, schema-valid default
(strong-induction form). -/
theorem fix_output_valid :
    ∀ (n : Nat) (s : Schema), sizeOf s ≤ n → ∀ (u d : JValue),
      schemaWF s = true → noRepos s = true → defaultOk s d = true →
      check s (fixLineByLine u d s).1 = true := by
  intro n
  induction n with
  | zero =>
    intro s hs
    exfalso
    cases s <;> simp at hs
  | succ n ih =>
    intro s hs u d hwf hnr hdef
    cases s with
    | sObject props req addl =>
      obtain ⟨dfields, rfl⟩ : ∃ dfields, d = .obj dfields := by
        cases d <;> simp_all [defaultOk]
      rw [defaultOk, Bool.and_eq_true] at hdef
      obtain ⟨hdchk, hdprops⟩ := hdef
      rw [schemaWF, Bool.and_eq_true, Bool.and_eq_true] at hwf
      obtain ⟨⟨hreq, hnd⟩, hwfprops⟩ := hwf
      rw [noRepos] at hnr
      by_cases hu : isObjLike u = true
      · have hout : (fixLineByLine u (.obj dfields) (.sObject props req addl)).1 =
            .obj (fixProps u (.obj dfields) props (spreadFields (.obj dfields))).1 := by
          simp [fixLineByLine, hu]
        rw [hout]
        set rfields := (fixProps u (.obj dfields) props (spreadFields (.obj dfields))).1 with hrf
        have hassigned : ∀ p s', (p, s') ∈ props →
            jget rfields p = some (assignedValue u (.obj dfields) p s') := by
          intro p s' hmem
          exact fixProps_fst_assigned u (.obj dfields) props _ p s' hnd hmem
        rw [check, Bool.and_eq_true, Bool.and_eq_true]
        refine ⟨⟨?_, ?_⟩, ?_⟩
        · -- required keys present
          rw [List.all_eq_true]
          intro r hr
          have hr' : r ∈ props.map Prod.fst := by
            rw [List.all_eq_true] at hreq
            have := hreq r hr
            simp only [List.any_eq_true, decide_eq_true_eq] at this
            obtain ⟨ps, hps, heq⟩ := this
            exact heq ▸ List.mem_map_of_mem _ hps
          simp only [List.mem_map] at hr'
          obtain ⟨ps, hps, heq⟩ := hr'
          have := hassigned ps.1 ps.2 (by simpa using hps)
          rw [heq] at this
          exact any_keys_of_jget this
        · -- declared properties valid
          apply checkProps_intro
          intro p s' hmem v hv
          have hdOk : defaultOk s' (jgetD (.obj dfields) p) = true := by
            obtain ⟨dv, hdv, hok⟩ := defaultOkProps_mem hdprops hmem
            simp [jgetD, hdv, hok]
          have hspec := assignedValue_spec u (.obj dfields) p s' hdOk (fun hos => by
            have hlt : sizeOf s' ≤ n := by
              have h1 := List.sizeOf_lt_of_mem hmem
              have h3 : sizeOf (Schema.sObject props req addl) ≤ n + 1 := hs
              simp only [Prod.mk.sizeOf_spec] at h1
              simp only [Schema.sObject.sizeOf_spec] at h3
              omega
            exact ih s' hlt (jgetD u p) (jgetD (.obj dfields) p)
              (schemaWFProps_mem hwfprops hmem)
              ((noReposProps_mem hnr hmem).2)
              hdOk)
          rw [hassigned p s' hmem] at hv
          injection hv with hv
          rcases hspec with ⟨hpin, _⟩ | hchk
          · exact absurd hpin (noReposProps_mem hnr hmem).1
          · exact hv ▸ hchk
        · -- unknown keys
          cases addl with
          | true => simp
          | false =>
            simp only [Bool.false_or]
            rw [List.all_eq_true]
            intro kv hkv
            have hmem' := fixProps_fst_mem u (.obj dfields) props _ kv hkv
            rcases hmem' with hres | hdecl
            · -- key came from the spread default
              rw [check, Bool.and_eq_true, Bool.and_eq_true] at hdchk
              have hall := hdchk.2
              simp only [Bool.false_or, List.all_eq_true] at hall
              simp only [spreadFields, List.mem_map] at hres
              obtain ⟨kv', hkv', hfst⟩ := hres
              have := hall kv' hkv'
              simp only [List.any_eq_true, decide_eq_true_eq] at this ⊢
              obtain ⟨ps, hps, heq⟩ := this
              exact ⟨ps, hps, by rw [heq, hfst]⟩
            · simp only [List.mem_map] at hdecl
              obtain ⟨ps, hps, heq⟩ := hdecl
              simp only [List.any_eq_true, decide_eq_true_eq]
              exact ⟨ps, hps, heq⟩
      · by_cases hchk : check (.sObject props req addl) u = true
        · simp [fixLineByLine, hu, hchk]
        · have hchk' : check (.sObject props req addl) u = false := by
            simpa using hchk
          have hout : (fixLineByLine u (.obj dfields) (.sObject props req addl)).1 =
              .obj dfields := by
            simp [fixLineByLine, hu, hchk']
          rw [hout]
          exact hdchk
    | sString =>
      by_cases hc : check Schema.sString u = true <;>
        simp_all [fixLineByLine, defaultOk]
    | sNumber =>
      by_cases hc : check Schema.sNumber u = true <;>
        simp_all [fixLineByLine, defaultOk]
    | sBoolean =>
      by_cases hc : check Schema.sBoolean u = true <;>
        simp_all [fixLineByLine, defaultOk]
    | sLiteral lit =>
      by_cases hc : check (Schema.sLiteral lit) u = true <;>
        simp_all [fixLineByLine, defaultOk]
    | sEnum vals =>
      by_cases hc : check (Schema.sEnum vals) u = true <;>
        simp_all [fixLineByLine, defaultOk]
    | sArray e =>
      by_cases hc : check (Schema.sArray e) u = true <;>
        simp_all [fixLineByLine, defaultOk]

/-!
## Lemmas relating object spread and the deep merger
-/

theorem mem_of_jget_pair {l : List (String × JValue)} {k : String} {v : JValue}
    (h : jget l k = some v) : (k, v) ∈ l := by
  induction l with
  | nil => simp [jget] at h
  | cons hd tl ih =>
    obtain ⟨k1, v1⟩ := hd
    by_cases hk : k1 = k
    · subst hk
      rw [jget, if_pos rfl] at h
      injection h with h
      simp [h]
    · rw [jget, if_neg hk] at h
      exact List.mem_cons_of_mem _ (ih h)

/-- Association lists with the same key sequence (duplicate-free) and
the same lookups are equal. -/
theorem assoc_ext : ∀ {l1 l2 : List (String × JValue)},
    l1.map Prod.fst = l2.map Prod.fst →
    (l1.map Prod.fst).Nodup →
    (∀ k, jget l1 k = jget l2 k) → l1 = l2 := by
  intro l1
  induction l1 with
  | nil =>
    intro l2 hk _ _
    cases l2 with
    | nil => rfl
    | cons hd tl => simp at hk
  | cons hd tl ih =>
    intro l2 hk hnd hv
    obtain ⟨k1, v1⟩ := hd
    cases l2 with
    | nil => simp at hk
    | cons hd2 tl2 =>
      obtain ⟨k2, v2⟩ := hd2
      simp only [List.map_cons, List.cons.injEq] at hk
      obtain ⟨hk12, hktl⟩ := hk
      subst hk12
      simp only [List.map_cons, List.nodup_cons] at hnd
      obtain ⟨hk1nmem, hndtl⟩ := hnd
      have hv1 : v1 = v2 := by
        have := hv k1
        simp [jget] at this
        exact this
      subst hv1
      have htl : tl = tl2 := by
        apply ih hktl hndtl
        intro k
        by_cases hkk : k = k1
        · subst hkk
          rw [jget_eq_none_of_not_mem hk1nmem,
            jget_eq_none_of_not_mem (hktl ▸ hk1nmem)]
        · have := hv k
          simpa [jget, Ne.symm hkk] using this
      rw [htl]

/-- Lookup in a left fold of JS spread assignments: a key bound in the
(duplicate-free) source wins; otherwise the accumulator binding is
kept. -/
theorem spreadFold_jget :
    ∀ (src acc : List (String × JValue)), (src.map Prod.fst).Nodup → ∀ k,
      jget (spreadFold acc src) k =
        (match jget src k with
         | some v => some v
         | none => jget acc k) := by
  intro src
  induction src with
  | nil => intro acc _ k; simp [spreadFold, jget]
  | cons hd tl ih =>
    intro acc h k
    obtain ⟨k1, v1⟩ := hd
    simp only [List.map_cons, List.nodup_cons] at h
    obtain ⟨hk1, htl⟩ := h
    have hstep : spreadFold acc ((k1, v1) :: tl) = spreadFold (setKey acc k1 v1) tl := by
      simp [spreadFold]
    rw [hstep, ih _ htl k]
    by_cases hkk : k1 = k
    · subst hkk
      rw [jget_eq_none_of_not_mem hk1]
      simp [jget, jget_setKey_self]
    · have h2 : jget ((k1, v1) :: tl) k = jget tl k := by simp [jget, hkk]
      rw [h2]
      rcases hjt : jget tl k with _ | v
      · simp [jget_setKey_ne _ hkk]
      · simp

/-- `setKey` either keeps the key sequence (existing key) or appends
the new key. -/
theorem setKey_keys (l : List (String × JValue)) (k : String) (v : JValue) :
    (setKey l k v).map Prod.fst =
      (if k ∈ l.map Prod.fst then l.map Prod.fst else l.map Prod.fst ++ [k]) := by
  induction l with
  | nil => simp [setKey]
  | cons hd tl ih =>
    obtain ⟨k1, v1⟩ := hd
    by_cases hk : k1 = k
    · subst hk; simp [setKey]
    · simp only [setKey, if_neg hk, List.map_cons, ih]
      by_cases hmem : k ∈ tl.map Prod.fst <;>
        simp [hmem, Ne.symm hk]

theorem nodup_setKey {l : List (String × JValue)} (k : String) (v : JValue)
    (h : (l.map Prod.fst).Nodup) : ((setKey l k v).map Prod.fst).Nodup := by
  rw [setKey_keys]
  by_cases hmem : k ∈ l.map Prod.fst
  · simpa [hmem]
  · simp [hmem, List.nodup_append, h]

theorem spreadFold_nodup :
    ∀ (src acc : List (String × JValue)), (acc.map Prod.fst).Nodup →
      ((spreadFold acc src).map Prod.fst).Nodup := by
  intro src
  induction src with
  | nil => intro acc h; simpa [spreadFold]
  | cons hd tl ih =>
    intro acc h
    have hstep : spreadFold acc (hd :: tl) = spreadFold (setKey acc hd.1 hd.2) tl := by
      simp [spreadFold]
    rw [hstep]
    exact ih _ (nodup_setKey _ _ h)

/-- The merge loop and the plain spread fold build the same key
sequence when the source has no `undefined` bindings. -/
theorem mergeLoop_keys_parallel (t : List (String × JValue)) :
    ∀ (src acc1 acc2 : List (String × JValue)),
      acc1.map Prod.fst = acc2.map Prod.fst →
      (∀ kv ∈ src, kv.2 ≠ JValue.undef) →
      (mergeLoop t acc2 src).map Prod.fst = (spreadFold acc1 src).map Prod.fst := by
  intro src
  induction src with
  | nil => intro acc1 acc2 h _; simpa [mergeLoop, spreadFold] using h.symm
  | cons hd tl ih =>
    intro acc1 acc2 h hnu
    obtain ⟨k1, v1⟩ := hd
    have hv1 : v1 ≠ JValue.undef := hnu (k1, v1) (List.mem_cons_self _ _)
    have hstep : spreadFold acc1 ((k1, v1) :: tl) = spreadFold (setKey acc1 k1 v1) tl := by
      simp [spreadFold]
    rw [mergeLoop, hstep]
    have hkeys : ∀ w, (setKey acc2 k1 w).map Prod.fst = (setKey acc1 k1 v1).map Prod.fst := by
      intro w
      rw [setKey_keys, setKey_keys, h]
    have hmv : (mergeStep t acc2 k1 v1).map Prod.fst = (setKey acc1 k1 v1).map Prod.fst := by
      cases v1 with
      | undef => exact absurd rfl hv1
      | obj sf =>
        rw [mergeStep]
        rcases jget t k1 with _ | tv
        · exact hkeys _
        · cases tv <;> exact hkeys _
      | null => exact hkeys _
      | bool b => exact hkeys _
      | num m => exact hkeys _
      | str s => exact hkeys _
      | arr es => exact hkeys _
    exact ih _ _ hmv.symm (fun kv hkv => hnu kv (List.mem_cons_of_mem _ hkv))

/-- Overwriting a key with the value it already holds is a no-op. -/
theorem setKey_self : ∀ {l : List (String × JValue)} {k : String} {v : JValue},
    jget l k = some v → setKey l k v = l := by
  intro l
  induction l with
  | nil => intro k v h; simp [jget] at h
  | cons hd tl ih =>
    intro k v h
    obtain ⟨k1, v1⟩ := hd
    by_cases hk : k1 = k
    · subst hk
      rw [jget, if_pos rfl] at h
      injection h with h
      simp [setKey, h]
    · rw [jget, if_neg hk] at h
      simp [setKey, hk, ih h]

/-- Merging into a target whose values are never plain objects is just
the spread fold (no recursion can trigger), for sources without
`undefined` bindings. -/
theorem mergeLoop_eq_spreadFold_flat {t : List (String × JValue)}
    (hflat : ∀ k v, jget t k = some v → isMergeObj v = false) :
    ∀ (src acc : List (String × JValue)),
      (∀ kv ∈ src, kv.2 ≠ JValue.undef) →
      mergeLoop t acc src = spreadFold acc src := by
  intro src
  induction src with
  | nil => intro acc _; simp [mergeLoop, spreadFold]
  | cons hd tl ih =>
    intro acc hnu
    obtain ⟨k1, v1⟩ := hd
    have hv1 : v1 ≠ JValue.undef := hnu (k1, v1) (List.mem_cons_self _ _)
    have hstep : spreadFold acc ((k1, v1) :: tl) = spreadFold (setKey acc k1 v1) tl := by
      simp [spreadFold]
    rw [mergeLoop, hstep]
    have hmv : mergeStep t acc k1 v1 = setKey acc k1 v1 := by
      cases v1 with
      | undef => exact absurd rfl hv1
      | obj sf =>
        rw [mergeStep]
        rcases hjt : jget t k1 with _ | tv
        · rfl
        · cases tv <;> first
            | rfl
            | (exact absurd (hflat _ _ hjt) (by simp [isMergeObj]))
      | null => rfl
      | bool b => rfl
      | num m => rfl
      | str s => rfl
      | arr es => rfl
    rw [hmv]
    exact ih _ (fun kv hkv => hnu kv (List.mem_cons_of_mem _ hkv))

theorem flat_of_all {l : List (String × JValue)}
    (h : ∀ kv ∈ l, isMergeObj kv.2 = false) :
    ∀ k v, jget l k = some v → isMergeObj v = false :=
  fun k v hj => h (k, v) (mem_of_jget_pair hj)

/-- On a non-object schema node a second repair pass records nothing
(the first pass output is the valid candidate or the valid default). -/
theorem second_pass_nil_of_leaf (s : Schema) (hleaf : isObjectSchema s = false)
    (u d : JValue) (hdef : defaultOk s d = true) :
    (fixLineByLine (fixLineByLine u d s).1 d s).2 = [] := by
  by_cases hc : check s u = true
  · have hw : (fixLineByLine u d s).1 = u := by
      cases s <;> simp_all [fixLineByLine, isObjectSchema]
    rw [hw]
    exact fix_valid_changed_nil' d hc
  · have hc' : check s u = false := by simpa using hc
    have hw : (fixLineByLine u d s).1 = d := by
      cases s <;> simp_all [fixLineByLine, isObjectSchema]
    rw [hw]
    exact fix_valid_changed_nil' d (defaultOk_check hdef)

/-- C7 amended: repair is idempotent — a second `fixLineByLine` pass
over a first pass's `fixedConfig` yields an empty changed-keys list —
provided the default document satisfies the spec's Default Document
invariant (complete and schema-valid, §3), the schema is well-formed
(required ⊆ declared, duplicate-free keys), and no object node strictly
below the top level declares the URL-cleaned repository properties
`customUserFocusedRepos`/`customDevsFocusedRepos` (the counterexample
shows a nested declaration breaks idempotence). -/
theorem fixLineByLine_repair_idempotent :
    ∀ (s : Schema) (u d : JValue),
      schemaWF s = true → noReposChildren s = true → defaultOk s d = true →
      (fixLineByLine (fixLineByLine u d s).1 d s).2 = [] := by
  intro s u d hwf hnr hdef
  cases s with
  | sObject props req addl =>
    by_cases hu : isObjLike u = true
    · obtain ⟨dfields, rfl⟩ : ∃ dfields, d = .obj dfields := by
        cases d <;> simp_all [defaultOk]
      have hdef' := hdef
      rw [defaultOk, Bool.and_eq_true] at hdef'
      obtain ⟨hdchk, hdprops⟩ := hdef'
      have hwf' := hwf
      rw [schemaWF, Bool.and_eq_true, Bool.and_eq_true] at hwf'
      obtain ⟨⟨hreq, hnd⟩, hwfprops⟩ := hwf'
      have hout : (fixLineByLine u (.obj dfields) (.sObject props req addl)).1 =
          .obj (fixProps u (.obj dfields) props (spreadFields (.obj dfields))).1 := by
        simp [fixLineByLine, hu]
      rw [hout]
      have hsecond : (fixLineByLine
          (.obj (fixProps u (.obj dfields) props (spreadFields (.obj dfields))).1)
          (.obj dfields) (.sObject props req addl)).2 =
          (fixProps (.obj (fixProps u (.obj dfields) props (spreadFields (.obj dfields))).1)
            (.obj dfields) props (spreadFields (.obj dfields))).2 := by
        simp [fixLineByLine, isObjLike]
      rw [hsecond]
      apply fixProps_changed_nil
      intro p s' hmem
      have hdOk : defaultOk s' (jgetD (.obj dfields) p) = true := by
        obtain ⟨dv, hdv, hok⟩ := defaultOkProps_mem hdprops hmem
        simp [jgetD, hdv, hok]
      have hnr' : noRepos s' = true := by
        rw [noReposChildren, List.all_eq_true] at hnr
        exact hnr (p, s') hmem
      apply changedContrib_eq_nil
      · intro v hv
        have hass := fixProps_fst_assigned u (.obj dfields) props
          (spreadFields (.obj dfields)) p s' hnd hmem
        rw [hass] at hv
        injection hv with hv
        have hspec := assignedValue_spec u (.obj dfields) p s' hdOk (fun hos =>
          fix_output_valid (sizeOf s') s' le_rfl (jgetD u p) (jgetD (.obj dfields) p)
            (schemaWFProps_mem hwfprops hmem) hnr' hdOk)
        exact hv ▸ hspec
      · intro v _ hcv _
        exact fix_valid_changed_nil' _ hcv
    · by_cases hchk : check (.sObject props req addl) u = true
      · have hw : (fixLineByLine u d (.sObject props req addl)).1 = u := by
          simp [fixLineByLine, hu, hchk]
        rw [hw]
        exact fix_valid_changed_nil' d hchk
      · have hchk' : check (.sObject props req addl) u = false := by simpa using hchk
        have hw : (fixLineByLine u d (.sObject props req addl)).1 = d := by
          simp [fixLineByLine, hu, hchk']
        rw [hw]
        exact fix_valid_changed_nil' d (defaultOk_check hdef)
  | sString => exact second_pass_nil_of_leaf Schema.sString rfl u d hdef
  | sNumber => exact second_pass_nil_of_leaf Schema.sNumber rfl u d hdef
  | sBoolean => exact second_pass_nil_of_leaf Schema.sBoolean rfl u d hdef
  | sLiteral lit => exact second_pass_nil_of_leaf (Schema.sLiteral lit) rfl u d hdef
  | sEnum vals => exact second_pass_nil_of_leaf (Schema.sEnum vals) rfl u d hdef
  | sArray e => exact second_pass_nil_of_leaf (Schema.sArray e) rfl u d hdef

/-- C9 counterexample: at the partial document `{features: null}` the
two functions differ — `mergeWithDefaults` null-coalesces the `features`
override away and keeps the default `features` object, while
`deepMerge` replaces the `features` value with `null` (a defined
override). -/
theorem mergeWithDefaults_ne_deepMerge :
    mergeWithDefaults DEFAULT_CONFIG (.obj [("features", .null)]) ≠
      .obj (deepMerge (spreadFields DEFAULT_CONFIG) [("features", .null)]) := by
  decide

/-- C9 amended: `mergeWithDefaults` agrees with
`deepMerge(DEFAULT_CONFIG, ·)` on every parsed partial document whose
fields hold no `undefined`, whose `features` / `preferredLibraries` /
`monorepo` / `customRules` / `codeStyle` fields are, when present,
plain objects (duplicate-free, no `undefined` bindings), whose
`codeStyle.modernize` is, when present, a plain object, and whose
`ignoreDependencies` is not `null`.  The counterexample shows the
null-coalescing special fields break the equality otherwise. -/
theorem mergeWithDefaults_eq_deepMerge :
    ∀ (pfs : List (String × JValue)),
      (pfs.map Prod.fst).Nodup →
      (∀ kv ∈ pfs, kv.2 ≠ JValue.undef) →
      (∀ K, K ∈ (["features", "preferredLibraries", "monorepo", "customRules",
          "codeStyle"] : List String) →
        ∀ v, jget pfs K = some v →
          ∃ l, v = .obj l ∧ (l.map Prod.fst).Nodup ∧ ∀ kv ∈ l, kv.2 ≠ JValue.undef) →
      (∀ csl, jget pfs "codeStyle" = some (.obj csl) →
        ∀ v, jget csl "modernize" = some v →
          ∃ l, v = .obj l ∧ ∀ kv ∈ l, kv.2 ≠ JValue.undef) →
      jget pfs "ignoreDependencies" ≠ some JValue.null →
      mergeWithDefaults DEFAULT_CONFIG (.obj pfs) =
        .obj (deepMerge (spreadFields DEFAULT_CONFIG) pfs) := by
  intro pfs hnd hnu hobj hmod hiD
  have hd1 : ((spreadFields DEFAULT_CONFIG).map Prod.fst).Nodup := by decide
  have hd2 : ∀ kv ∈ spreadFields DEFAULT_CONFIG, isMergeObj kv.2 = true →
      kv.1 ∈ (["features", "preferredLibraries", "monorepo", "customRules",
        "codeStyle"] : List String) := by decide
  have hjFc : jget (spreadFields DEFAULT_CONFIG) "features" =
      some (.obj (spreadFields (jgetD DEFAULT_CONFIG "features"))) := by decide
  have hjPc : jget (spreadFields DEFAULT_CONFIG) "preferredLibraries" =
      some (.obj (spreadFields (jgetD DEFAULT_CONFIG "preferredLibraries"))) := by decide
  have hjMc : jget (spreadFields DEFAULT_CONFIG) "monorepo" =
      some (.obj (spreadFields (jgetD DEFAULT_CONFIG "monorepo"))) := by decide
  have hjRc : jget (spreadFields DEFAULT_CONFIG) "customRules" =
      some (.obj (spreadFields (jgetD DEFAULT_CONFIG "customRules"))) := by decide
  have hjCSc : jget (spreadFields DEFAULT_CONFIG) "codeStyle" =
      some (.obj (spreadFields (jgetD DEFAULT_CONFIG "codeStyle"))) := by decide
  have hjIc : jget (spreadFields DEFAULT_CONFIG) "ignoreDependencies" =
      some (.arr []) := by decide
  have hIval : jgetD DEFAULT_CONFIG "ignoreDependencies" = .arr [] := by decide
  have hflatF : ∀ kv ∈ spreadFields (jgetD DEFAULT_CONFIG "features"),
      isMergeObj kv.2 = false := by decide
  have hflatP : ∀ kv ∈ spreadFields (jgetD DEFAULT_CONFIG "preferredLibraries"),
      isMergeObj kv.2 = false := by decide
  have hflatM : ∀ kv ∈ spreadFields (jgetD DEFAULT_CONFIG "monorepo"),
      isMergeObj kv.2 = false := by decide
  have hflatR : ∀ kv ∈ spreadFields (jgetD DEFAULT_CONFIG "customRules"),
      isMergeObj kv.2 = false := by decide
  have hflatMod : ∀ kv ∈ spreadFields (jgetD (jgetD DEFAULT_CONFIG "codeStyle") "modernize"),
      isMergeObj kv.2 = false := by decide
  have hCsExcept : ∀ kv ∈ spreadFields (jgetD DEFAULT_CONFIG "codeStyle"),
      isMergeObj kv.2 = true → kv.1 = "modernize" := by decide
  have hjModc : jget (spreadFields (jgetD DEFAULT_CONFIG "codeStyle")) "modernize" =
      some (.obj (spreadFields (jgetD (jgetD DEFAULT_CONFIG "codeStyle") "modernize"))) := by
    decide
  have hndCs : ((spreadFields (jgetD DEFAULT_CONFIG "codeStyle")).map Prod.fst).Nodup := by
    decide
  have hspObj : ∀ (l : List (String × JValue)), spreadFields (JValue.obj l) = l :=
    fun _ => rfl
  have hjgU : jgetD (JValue.undef) "modernize" = JValue.undef := rfl
  have hoeObj : ∀ (l : List (String × JValue)), orElseObjFields (JValue.obj l) = l :=
    fun _ => rfl
  have hbase := spreadFold_jget pfs (spreadFields DEFAULT_CONFIG) hnd
  have hmemBase : ∀ (K : String) (w : JValue),
      jget (spreadFields DEFAULT_CONFIG) K = some w →
      K ∈ (spreadFold (spreadFields DEFAULT_CONFIG) pfs).map Prod.fst := by
    intro K w hw
    have h2 := hbase K
    rcases hpk : jget pfs K with _ | u
    · rw [hpk] at h2
      exact mem_of_jget_eq_some (by rw [h2]; exact hw)
    · rw [hpk] at h2
      exact mem_of_jget_eq_some h2
  have hmF := hmemBase _ _ hjFc
  have hmP := hmemBase _ _ hjPc
  have hmM := hmemBase _ _ hjMc
  have hmR := hmemBase _ _ hjRc
  have hmCS := hmemBase _ _ hjCSc
  have hmI := hmemBase _ _ hjIc
  simp only [mergeWithDefaults, deepMerge, hspObj]
  refine congrArg JValue.obj (assoc_ext ?_ ?_ ?_)
  · -- key sequences agree
    rw [mergeLoop_keys_parallel (spreadFields DEFAULT_CONFIG) pfs
      (spreadFields DEFAULT_CONFIG) (spreadFields DEFAULT_CONFIG) rfl hnu]
    simp only [setKey_keys]
    simp [hmF, hmP, hmM, hmR, hmCS, hmI]
  · -- duplicate-freeness
    simp only [setKey_keys]
    simp [hmF, hmP, hmM, hmR, hmCS, hmI]
    exact spreadFold_nodup pfs _ hd1
  · -- pointwise lookups agree
    intro k
    rw [mergeLoop_jget (spreadFields DEFAULT_CONFIG) k pfs (spreadFields DEFAULT_CONFIG) hnd]
    by_cases hki : k = "ignoreDependencies"
    · subst hki
      rw [jget_setKey_self]
      rcases hj : jget pfs "ignoreDependencies" with _ | v
      · have h1 : jgetD (JValue.obj pfs) "ignoreDependencies" = .undef := by
          simp [jgetD, hj]
        rw [h1, hIval, hjIc]
      · have hvne : v ≠ JValue.undef := by
          have := hnu ("ignoreDependencies", v) (mem_of_jget_pair hj)
          simpa using this
        have hvnn : v ≠ JValue.null := by
          intro h; rw [h] at hj; exact hiD hj
        have h1 : jgetD (JValue.obj pfs) "ignoreDependencies" = v := by
          simp [jgetD, hj]
        rw [h1, hjIc]
        cases v with
        | undef => exact absurd rfl hvne
        | null => exact absurd rfl hvnn
        | obj vf => rfl
        | bool b => rfl
        | num m => rfl
        | str s => rfl
        | arr es => rfl
    · rw [jget_setKey_ne _ (Ne.symm hki)]
      by_cases hkr : k = "customRules"
      · subst hkr
        rw [jget_setKey_self]
        rcases hj : jget pfs "customRules" with _ | v
        · have h1 : jgetD (JValue.obj pfs) "customRules" = .undef := by
            simp [jgetD, hj]
          rw [h1, hjRc]
          simp [orElseObjFields, spreadFold]
        · obtain ⟨vl, rfl, _, hvnu⟩ := hobj "customRules" (by simp) v hj
          have h1 : jgetD (JValue.obj pfs) "customRules" = .obj vl := by
            simp [jgetD, hj]
          rw [h1, hjRc]
          simp only [orElseObjFields, hspObj]
          rw [mergeLoop_eq_spreadFold_flat (flat_of_all hflatR) vl _ hvnu]
      · rw [jget_setKey_ne _ (Ne.symm hkr)]
        by_cases hkm : k = "monorepo"
        · subst hkm
          rw [jget_setKey_self]
          rcases hj : jget pfs "monorepo" with _ | v
          · have h1 : jgetD (JValue.obj pfs) "monorepo" = .undef := by
              simp [jgetD, hj]
            rw [h1, hjMc]
            simp [orElseObjFields, spreadFold]
          · obtain ⟨vl, rfl, _, hvnu⟩ := hobj "monorepo" (by simp) v hj
            have h1 : jgetD (JValue.obj pfs) "monorepo" = .obj vl := by
              simp [jgetD, hj]
            rw [h1, hjMc]
            simp only [orElseObjFields, hspObj]
            rw [mergeLoop_eq_spreadFold_flat (flat_of_all hflatM) vl _ hvnu]
        · rw [jget_setKey_ne _ (Ne.symm hkm)]
          by_cases hkp : k = "preferredLibraries"
          · subst hkp
            rw [jget_setKey_self]
            rcases hj : jget pfs "preferredLibraries" with _ | v
            · have h1 : jgetD (JValue.obj pfs) "preferredLibraries" = .undef := by
                simp [jgetD, hj]
              rw [h1, hjPc]
              simp [orElseObjFields, spreadFold]
            · obtain ⟨vl, rfl, _, hvnu⟩ := hobj "preferredLibraries" (by simp) v hj
              have h1 : jgetD (JValue.obj pfs) "preferredLibraries" = .obj vl := by
                simp [jgetD, hj]
              rw [h1, hjPc]
              simp only [orElseObjFields, hspObj]
              rw [mergeLoop_eq_spreadFold_flat (flat_of_all hflatP) vl _ hvnu]
          · rw [jget_setKey_ne _ (Ne.symm hkp)]
            by_cases hkc : k = "codeStyle"
            · subst hkc
              rw [jget_setKey_self]
              rcases hj : jget pfs "codeStyle" with _ | v
              · have h1 : jgetD (JValue.obj pfs) "codeStyle" = .undef := by
                  simp [jgetD, hj]
                rw [h1, hjCSc]
                simp only [hjgU, orElseObjFields, spreadFold, List.foldl_nil]
                rw [setKey_self hjModc]
              · obtain ⟨csl, rfl, hcslnd, hcslnu⟩ := hobj "codeStyle" (by simp) v hj
                have h1 : jgetD (JValue.obj pfs) "codeStyle" = .obj csl := by
                  simp [jgetD, hj]
                rw [h1, hjCSc]
                simp only [hoeObj]
                have hinner : setKey
                    (spreadFold (spreadFields (jgetD DEFAULT_CONFIG "codeStyle")) csl)
                    "modernize"
                    (JValue.obj (spreadFold
                      (spreadFields (jgetD (jgetD DEFAULT_CONFIG "codeStyle") "modernize"))
                      (orElseObjFields (jgetD (JValue.obj csl) "modernize")))) =
                    mergeLoop (spreadFields (jgetD DEFAULT_CONFIG "codeStyle"))
                      (spreadFields (jgetD DEFAULT_CONFIG "codeStyle")) csl := by
                  have hcs_spread := spreadFold_jget csl
                    (spreadFields (jgetD DEFAULT_CONFIG "codeStyle")) hcslnd
                  have hmodmem : "modernize" ∈
                      (spreadFold (spreadFields (jgetD DEFAULT_CONFIG "codeStyle"))
                        csl).map Prod.fst := by
                    have h2 := hcs_spread "modernize"
                    rcases hpk : jget csl "modernize" with _ | u
                    · rw [hpk] at h2
                      exact mem_of_jget_eq_some (by rw [h2]; exact hjModc)
                    · rw [hpk] at h2
                      exact mem_of_jget_eq_some h2
                  apply assoc_ext
                  · rw [mergeLoop_keys_parallel
                      (spreadFields (jgetD DEFAULT_CONFIG "codeStyle")) csl
                      (spreadFields (jgetD DEFAULT_CONFIG "codeStyle"))
                      (spreadFields (jgetD DEFAULT_CONFIG "codeStyle")) rfl hcslnu]
                    rw [setKey_keys, if_pos hmodmem]
                  · rw [setKey_keys, if_pos hmodmem]
                    exact spreadFold_nodup csl _ hndCs
                  · intro k'
                    rw [mergeLoop_jget (spreadFields (jgetD DEFAULT_CONFIG "codeStyle")) k'
                      csl (spreadFields (jgetD DEFAULT_CONFIG "codeStyle")) hcslnd]
                    by_cases hk'm : k' = "modernize"
                    · subst hk'm
                      rw [jget_setKey_self]
                      rcases hjm : jget csl "modernize" with _ | mv
                      · have h2 : jgetD (JValue.obj csl) "modernize" = .undef := by
                          simp [jgetD, hjm]
                        rw [h2, hjModc]
                        simp [orElseObjFields, spreadFold]
                      · obtain ⟨ml, rfl, hmlnu⟩ := hmod csl hj mv hjm
                        have h2 : jgetD (JValue.obj csl) "modernize" = .obj ml := by
                          simp [jgetD, hjm]
                        rw [h2, hjModc]
                        simp only [orElseObjFields, hspObj]
                        rw [mergeLoop_eq_spreadFold_flat (flat_of_all hflatMod) ml _ hmlnu]
                    · rw [jget_setKey_ne _ (Ne.symm hk'm)]
                      rw [hcs_spread k']
                      rcases hjk' : jget csl k' with _ | w
                      · rfl
                      · have hwne : w ≠ JValue.undef := by
                          have := hcslnu (k', w) (mem_of_jget_pair hjk')
                          simpa using this
                        cases w with
                        | undef => exact absurd rfl hwne
                        | obj wf =>
                          rcases hdk : jget (spreadFields (jgetD DEFAULT_CONFIG "codeStyle"))
                              k' with _ | dv
                          · rfl
                          · cases dv with
                            | obj df =>
                              exact absurd (hCsExcept (k', .obj df)
                                (mem_of_jget_pair hdk) rfl) hk'm
                            | null => rfl
                            | undef => rfl
                            | bool b => rfl
                            | num m => rfl
                            | str s => rfl
                            | arr es => rfl
                        | null => rfl
                        | bool b => rfl
                        | num m => rfl
                        | str s => rfl
                        | arr es => rfl
                rw [hinner]
            · rw [jget_setKey_ne _ (Ne.symm hkc)]
              by_cases hkf : k = "features"
              · subst hkf
                rw [jget_setKey_self]
                rcases hj : jget pfs "features" with _ | v
                · have h1 : jgetD (JValue.obj pfs) "features" = .undef := by
                    simp [jgetD, hj]
                  rw [h1, hjFc]
                  simp [orElseObjFields, spreadFold]
                · obtain ⟨vl, rfl, _, hvnu⟩ := hobj "features" (by simp) v hj
                  have h1 : jgetD (JValue.obj pfs) "features" = .obj vl := by
                    simp [jgetD, hj]
                  rw [h1, hjFc]
                  simp only [orElseObjFields, hspObj]
                  rw [mergeLoop_eq_spreadFold_flat (flat_of_all hflatF) vl _ hvnu]
              · rw [jget_setKey_ne _ (Ne.symm hkf)]
                rw [hbase k]
                rcases hpk : jget pfs k with _ | v
                · rfl
                · have hvne : v ≠ JValue.undef := by
                    have := hnu (k, v) (mem_of_jget_pair hpk)
                    simpa using this
                  cases v with
                  | undef => exact absurd rfl hvne
                  | obj vf =>
                    rcases hdk : jget (spreadFields DEFAULT_CONFIG) k with _ | dv
                    · rfl
                    · cases dv with
                      | obj df =>
                        have := hd2 (k, .obj df) (mem_of_jget_pair hdk) rfl
                        simp only [List.mem_cons, List.not_mem_nil, or_false] at this
                        rcases this with h | h | h | h | h
                        · exact absurd h hkf
                        · exact absurd h hkp
                        · exact absurd h hkm
                        · exact absurd h hkr
                        · exact absurd h hkc
                      | null => rfl
                      | undef => rfl
                      | bool b => rfl
                      | num m => rfl
                      | str s => rfl
                      | arr es => rfl
                  | null => rfl
                  | bool b => rfl
                  | num m => rfl
                  | str s => rfl
                  | arr es => rfl

/-- Witness for C9 amended at a concrete conforming partial. -/
theorem mergeWithDefaults_eq_deepMerge_witness :
    (([("projectName", JValue.str "x"), ("features", JValue.obj [("i18n", JValue.bool true)])].map
      Prod.fst).Nodup) ∧
    mergeWithDefaults DEFAULT_CONFIG
        (.obj [("projectName", JValue.str "x"),
          ("features", JValue.obj [("i18n", JValue.bool true)])]) =
      .obj (deepMerge (spreadFields DEFAULT_CONFIG)
        [("projectName", JValue.str "x"),
         ("features", JValue.obj [("i18n", JValue.bool true)])]) :=
  ⟨by decide,
    mergeWithDefaults_eq_deepMerge _ (by decide) (by decide)
      (by
        intro K hK v hv
        simp only [List.mem_cons, List.not_mem_nil, or_false] at hK
        rcases hK with rfl | rfl | rfl | rfl | rfl <;> simp [jget] at hv
        exact ⟨[("i18n", JValue.bool true)], hv.symm, by decide, by decide⟩)
      (by
        intro csl hcs v hv
        simp [jget] at hcs)
      (by decide)⟩

/-- Witness for C7 amended: a schema shaped like the engine's own
(top-level repo arrays allowed) with a complete valid default and an
invalid candidate; the second pass over the repaired document records
nothing. -/
theorem fixLineByLine_repair_idempotent_witness :
    schemaWF (.sObject [("projectName", .sString),
        ("customUserFocusedRepos", .sArray .sString),
        ("codeStyle", .sObject [("tabWidth", .sNumber)] ["tabWidth"] false)]
        ["projectName"] false) = true ∧
    noReposChildren (.sObject [("projectName", .sString),
        ("customUserFocusedRepos", .sArray .sString),
        ("codeStyle", .sObject [("tabWidth", .sNumber)] ["tabWidth"] false)]
        ["projectName"] false) = true ∧
    defaultOk (.sObject [("projectName", .sString),
        ("customUserFocusedRepos", .sArray .sString),
        ("codeStyle", .sObject [("tabWidth", .sNumber)] ["tabWidth"] false)]
        ["projectName"] false)
      (.obj [("projectName", .str "unknown"),
        ("customUserFocusedRepos", .arr [.str "github.com/a/b"]),
        ("codeStyle", .obj [("tabWidth", .num 2)])]) = true ∧
    (fixLineByLine
        (fixLineByLine (.obj [("projectName", .num 7), ("codeStyle", .obj [("tabWidth", .str "x")])])
          (.obj [("projectName", .str "unknown"),
            ("customUserFocusedRepos", .arr [.str "github.com/a/b"]),
            ("codeStyle", .obj [("tabWidth", .num 2)])])
          (.sObject [("projectName", .sString),
            ("customUserFocusedRepos", .sArray .sString),
            ("codeStyle", .sObject [("tabWidth", .sNumber)] ["tabWidth"] false)]
            ["projectName"] false)).1
        (.obj [("projectName", .str "unknown"),
          ("customUserFocusedRepos", .arr [.str "github.com/a/b"]),
          ("codeStyle", .obj [("tabWidth", .num 2)])])
        (.sObject [("projectName", .sString),
          ("customUserFocusedRepos", .sArray .sString),
          ("codeStyle", .sObject [("tabWidth", .sNumber)] ["tabWidth"] false)]
          ["projectName"] false)).2 = [] :=
  ⟨by decide, by decide, by decide,
    fixLineByLine_repair_idempotent _ _ _ (by decide) (by decide) (by decide)⟩

end Reliverse
